import Mathlib

/-!
# Verification of the haex-marketplace publication pipeline

Shallow embedding of the marketplace backend's core logic: semantic-version
ordering, SHA-256 bundle hashing, the version creation / publish routes, the
review rating aggregator, the download recorder and API-key authentication,
together with theorems checking the specification's claims against it.

Sources embedded: `src/routes/publish` and `src/routes/extensions`
(the unnamed route file), `src/middleware/auth.ts`, `src/routes/reviews.ts`,
`src/utils/storage.ts`, `src/db/schema.ts`.
-/

namespace Haex

/-! ## Semantic versions

The routes use the npm `semver` library (`semver.valid`, `semver.gt`).
The library is an external collaborator of the repository; the definitions
below implement standard SemVer 2.0.0 syntax and precedence, which is what
the spec (§6) requires of it. -/

/-- One dot-separated prerelease identifier: numeric or alphanumeric. -/
inductive PreId where
  | num (n : Nat)
  | alpha (s : List Char)
deriving DecidableEq, Repr

/-- ASCII-lexicographic strict order on character lists. -/
def charsLt : List Char → List Char → Bool
  | [], [] => false
  | [], _ :: _ => true
  | _ :: _, [] => false
  | x :: xs, y :: ys =>
    if x.toNat < y.toNat then true
    else if y.toNat < x.toNat then false
    else charsLt xs ys

/-- A parsed semantic version (build metadata is dropped: it is ignored by
precedence). -/
structure Semver where
  major : Nat
  minor : Nat
  patch : Nat
  pre : List PreId
deriving DecidableEq, Repr

def isDigitCh (c : Char) : Bool := 48 ≤ c.toNat && c.toNat ≤ 57

def isIdentCh (c : Char) : Bool :=
  isDigitCh c || (65 ≤ c.toNat && c.toNat ≤ 90) ||
    (97 ≤ c.toNat && c.toNat ≤ 122) || c = '-'

/-- Split a character list at every occurrence of the separator (like
JavaScript `split`; structural, so it reduces in the kernel). -/
def splitCh (sep : Char) : List Char → List (List Char)
  | [] => [[]]
  | c :: rest =>
    let r := splitCh sep rest
    if c = sep then [] :: r
    else
      match r with
      | [] => [[c]]
      | seg :: segs => (c :: seg) :: segs

def digitsToNat (l : List Char) : Nat :=
  l.foldl (fun n c => n * 10 + (c.toNat - 48)) 0

/-- Parse a numeric identifier: digits only, no leading zero (except "0"). -/
def parseNumId (l : List Char) : Option Nat :=
  if l ≠ [] && l.all isDigitCh && !(l.length > 1 && l.head? = some '0') then
    some (digitsToNat l)
  else
    none

/-- Parse one prerelease identifier. -/
def parsePreId (l : List Char) : Option PreId :=
  if l = [] then none
  else if l.all isDigitCh then
    (parseNumId l).map .num
  else if l.all isIdentCh then
    some (.alpha l)
  else none

def parsePreIds : List (List Char) → Option (List PreId)
  | [] => some []
  | s :: rest => do
    let i ← parsePreId s
    let is ← parsePreIds rest
    pure (i :: is)

def buildIdOk (l : List Char) : Bool := l ≠ [] && l.all isIdentCh

/-- Parse the `major.minor.patch[-pre]` part (build metadata already
stripped): the version core runs to the first hyphen, the prerelease
identifiers follow it. -/
def parseCore (core : List Char) : Option Semver :=
  let verPart := core.takeWhile (fun c => c ≠ '-')
  let rest := core.dropWhile (fun c => c ≠ '-')
  match splitCh '.' verPart with
  | [ma, mi, pa] => do
    let major ← parseNumId ma
    let minor ← parseNumId mi
    let patch ← parseNumId pa
    let pre ←
      match rest with
      | [] => some []
      | _ :: preChars => parsePreIds (splitCh '.' preChars)
    pure ⟨major, minor, patch, pre⟩
  | _ => none

/-- Parsing per `semver.valid`: returns the parsed version for a syntactically
valid semantic version, `none` otherwise. -/
def parseSemver (s : String) : Option Semver :=
  match splitCh '+' s.data with
  | [core] => parseCore core
  | [core, build] =>
    if (splitCh '.' build).all buildIdOk then parseCore core else none
  | _ => none

/-- SemVer precedence on prerelease identifiers: numeric < alphanumeric,
numeric by value, alphanumeric by ASCII lexicographic order. -/
def preIdLtB : PreId → PreId → Bool
  | .num a, .num b => a < b
  | .num _, .alpha _ => true
  | .alpha _, .num _ => false
  | .alpha a, .alpha b => charsLt a b

/-- Compare prerelease identifier lists; a strict prefix has lower
precedence. -/
def preCmp : List PreId → List PreId → Ordering
  | [], [] => .eq
  | [], _ :: _ => .lt
  | _ :: _, [] => .gt
  | x :: xs, y :: ys =>
    if x = y then preCmp xs ys
    else if preIdLtB x y then .lt else .gt

/-- Full SemVer precedence. A version without prerelease identifiers has
higher precedence than one with. -/
def semverCmp (a b : Semver) : Ordering :=
  if a.major < b.major then .lt else if b.major < a.major then .gt
  else if a.minor < b.minor then .lt else if b.minor < a.minor then .gt
  else if a.patch < b.patch then .lt else if b.patch < a.patch then .gt
  else
    match a.pre, b.pre with
    | [], [] => .eq
    | [], _ :: _ => .gt
    | _ :: _, [] => .lt
    | x, y => preCmp x y

/-- Comparison `semver.gt(x, y)` on version strings: true when both parse and `x` has
strictly higher precedence than `y`. -/
def semverGtStr (x y : String) : Bool :=
  match parseSemver x, parseSemver y with
  | some a, some b => semverCmp a b = .gt
  | _, _ => false

/-- Validity check `semver.valid` as a Bool. -/
def semverValid (s : String) : Bool := (parseSemver s).isSome

/-! ## SHA-256 (`crypto.createHash("sha256")`), over byte lists -/

def w32 (n : Nat) : Nat := n % 4294967296

def rotr (n x : Nat) : Nat := w32 ((x >>> n) ||| (x <<< (32 - n)))

def shaCh (x y z : Nat) : Nat := (x &&& y) ^^^ ((w32 (2^32 - 1 - x)) &&& z)

def shaMaj (x y z : Nat) : Nat := (x &&& y) ^^^ (x &&& z) ^^^ (y &&& z)

def bigSig0 (x : Nat) : Nat := rotr 2 x ^^^ rotr 13 x ^^^ rotr 22 x

def bigSig1 (x : Nat) : Nat := rotr 6 x ^^^ rotr 11 x ^^^ rotr 25 x

def smallSig0 (x : Nat) : Nat := rotr 7 x ^^^ rotr 18 x ^^^ (x >>> 3)

def smallSig1 (x : Nat) : Nat := rotr 17 x ^^^ rotr 19 x ^^^ (x >>> 10)

def shaK : List Nat :=
  [1116352408, 1899447441, 3049323471, 3921009573,
   961987163, 1508970993, 2453635748, 2870763221,
   3624381080, 310598401, 607225278, 1426881987,
   1925078388, 2162078206, 2614888103, 3248222580,
   3835390401, 4022224774, 264347078, 604807628,
   770255983, 1249150122, 1555081692, 1996064986,
   2554220882, 2821834349, 2952996808, 3210313671,
   3336571891, 3584528711, 113926993, 338241895,
   666307205, 773529912, 1294757372, 1396182291,
   1695183700, 1986661051, 2177026350, 2456956037,
   2730485921, 2820302411, 3259730800, 3345764771,
   3516065817, 3600352804, 4094571909, 275423344,
   430227734, 506948616, 659060556, 883997877,
   958139571, 1322822218, 1537002063, 1747873779,
   1955562222, 2024104815, 2227730452, 2361852424,
   2428436474, 2756734187, 3204031479, 3329325298]

/-- Pad a byte message to a multiple of 64 bytes, appending 0x80, zeros and
the 64-bit big-endian bit length. -/
def shaPad (msg : List Nat) : List Nat :=
  let bitLen := 8 * msg.length
  let zeros := (120 - (msg.length + 1) % 64) % 64
  msg ++ [0x80] ++ List.replicate zeros 0 ++
    ((List.range 8).map fun i => (bitLen >>> (8 * (7 - i))) % 256)

/-- Fuel-driven 64-byte chunking (structural, so it reduces in the kernel;
fuel bounded by the list length always suffices). -/
def chunk64Aux : Nat → List Nat → List (List Nat)
  | 0, _ => []
  | _, [] => []
  | fuel + 1, x :: xs => ((x :: xs).take 64) :: chunk64Aux fuel ((x :: xs).drop 64)

def chunk64 (l : List Nat) : List (List Nat) := chunk64Aux l.length l

/-- Big-endian 32-bit words from bytes. -/
def toWords : List Nat → List Nat
  | a :: b :: c :: d :: rest =>
    ((a <<< 24) ||| (b <<< 16) ||| (c <<< 8) ||| d) :: toWords rest
  | _ => []

/-- Extend the 16-word block to the 64-word message schedule. -/
def extendSchedule (w16 : List Nat) : List Nat :=
  (List.range 48).foldl
    (fun w _ =>
      let t := w.length
      w ++ [w32 (smallSig1 (w.getD (t - 2) 0) + w.getD (t - 7) 0 +
        smallSig0 (w.getD (t - 15) 0) + w.getD (t - 16) 0)])
    w16

structure H8 where
  a : Nat
  b : Nat
  c : Nat
  d : Nat
  e : Nat
  f : Nat
  g : Nat
  h : Nat
deriving DecidableEq, Repr

def shaRound (s : H8) (kw : Nat × Nat) : H8 :=
  let t1 := w32 (s.h + bigSig1 s.e + shaCh s.e s.f s.g + kw.1 + kw.2)
  let t2 := w32 (bigSig0 s.a + shaMaj s.a s.b s.c)
  ⟨w32 (t1 + t2), s.a, s.b, s.c, w32 (s.d + t1), s.e, s.f, s.g⟩

def shaInit : H8 :=
  ⟨1779033703, 3144134277, 1013904242, 2773480762,
   1359893119, 2600822924, 528734635, 1541459225⟩

def processBlock (h : H8) (block : List Nat) : H8 :=
  let w := extendSchedule (toWords block)
  let s := (shaK.zip w).foldl shaRound h
  ⟨w32 (h.a + s.a), w32 (h.b + s.b), w32 (h.c + s.c), w32 (h.d + s.d),
   w32 (h.e + s.e), w32 (h.f + s.f), w32 (h.g + s.g), w32 (h.h + s.h)⟩

def wordBytes (x : Nat) : List Nat :=
  [(x >>> 24) % 256, (x >>> 16) % 256, (x >>> 8) % 256, x % 256]

/-- SHA-256 digest of a byte list, as 32 bytes. -/
def sha256Bytes (msg : List Nat) : List Nat :=
  let h := (chunk64 (shaPad msg)).foldl processBlock shaInit
  wordBytes h.a ++ wordBytes h.b ++ wordBytes h.c ++ wordBytes h.d ++
    wordBytes h.e ++ wordBytes h.f ++ wordBytes h.g ++ wordBytes h.h

def hexDigitCh (n : Nat) : Char := "0123456789abcdef".data.getD n 'x'

def byteHex (b : Nat) : String :=
  String.mk [hexDigitCh (b / 16 % 16), hexDigitCh (b % 16)]

def strConcat (l : List String) : String := l.foldr (· ++ ·) ""

/-- Digest rendering `.digest("hex")`: lowercase hexadecimal encoding of the SHA-256 digest. -/
def sha256Hex (msg : List Nat) : String :=
  strConcat ((sha256Bytes msg).map byteHex)

/-- UTF-8 encoding of one code point. -/
def utf8Char (c : Char) : List Nat :=
  let n := c.toNat
  if n < 0x80 then [n]
  else if n < 0x800 then [0xC0 ||| (n >>> 6), 0x80 ||| (n &&& 0x3F)]
  else if n < 0x10000 then
    [0xE0 ||| (n >>> 12), 0x80 ||| ((n >>> 6) &&& 0x3F), 0x80 ||| (n &&& 0x3F)]
  else
    [0xF0 ||| (n >>> 18), 0x80 ||| ((n >>> 12) &&& 0x3F),
     0x80 ||| ((n >>> 6) &&& 0x3F), 0x80 ||| (n &&& 0x3F)]

/-- UTF-8 bytes of a string (`.update(token)` hashes the UTF-8 bytes). -/
def utf8Bytes (s : String) : List Nat := (s.data.map utf8Char).flatten

/-! ## Data model (`src/db/schema.ts`)

Rows are Lean structures; the database is lists of rows. Identifiers and
timestamps are `Nat`. All fields the routes read or write are kept. -/

inductive ExtStatus where
  | draft | pendingReview | published | rejected | unlisted
deriving DecidableEq, Repr

inductive VerStatus where
  | draft | pendingReview | published | rejected
deriving DecidableEq, Repr

structure Publisher where
  id : Nat
  userId : Nat
  slug : String
deriving DecidableEq, Repr

structure Extension where
  id : Nat
  publisherId : Nat
  categoryId : Option Nat
  extensionId : String
  publicKey : String
  name : String
  slug : String
  shortDescription : String
  description : String
  iconUrl : Option String
  status : ExtStatus
  verified : Bool
  totalDownloads : Nat
  averageRating : Option Nat
  reviewCount : Nat
  tags : List String
  createdAt : Nat
  updatedAt : Nat
  publishedAt : Option Nat
deriving DecidableEq, Repr

structure ExtVersion where
  id : Nat
  extensionId : Nat
  version : String
  changelog : Option String
  bundlePath : String
  bundleSize : Nat
  bundleHash : String
  manifest : String
  minAppVersion : Option String
  maxAppVersion : Option String
  permissions : List String
  status : VerStatus
  downloads : Nat
  createdAt : Nat
  publishedAt : Option Nat
deriving DecidableEq, Repr

structure Review where
  id : Nat
  extensionId : Nat
  userId : Nat
  rating : Nat
  title : Option String
  content : Option String
  createdAt : Nat
  updatedAt : Nat
deriving DecidableEq, Repr

structure DlEvent where
  extensionId : Nat
  versionId : Nat
  userId : Option Nat
  createdAt : Nat
deriving DecidableEq, Repr

structure ApiKey where
  id : Nat
  publisherId : Nat
  keyHash : String
  expiresAt : Nat
  lastUsedAt : Option Nat
deriving DecidableEq, Repr

structure Category where
  id : Nat
  slug : String
deriving DecidableEq, Repr

/-- The whole persistent state: relational tables plus the object-storage
bucket (path ↦ bytes). -/
structure DB where
  publishers : List Publisher
  exts : List Extension
  vers : List ExtVersion
  reviews : List Review
  downloads : List DlEvent
  apiKeys : List ApiKey
  cats : List Category
  storage : List (String × List Nat)
deriving DecidableEq, Repr

/-- Route outcomes: HTTP error (status code, message) or the success payload
each handler returns. -/
inductive RouteOut where
  | err (code : Nat) (msg : String)
  | createdVersion (v : ExtVersion)
  | createdExt (e : Extension)
  | updatedExt (e : Extension)
  | publishOk
  | reviewRes (code : Nat) (r : Review)
  | deleteOk
  | downloadInfo (url : String) (version : String) (bundleSize : Nat)
      (bundleHash : String)
deriving DecidableEq, Repr

def RouteOut.code : RouteOut → Nat
  | .err c _ => c
  | .createdVersion _ => 201
  | .createdExt _ => 201
  | .updatedExt _ => 200
  | .publishOk => 200
  | .reviewRes c _ => c
  | .deleteOk => 200
  | .downloadInfo _ _ _ _ => 200

/-! ## Query helpers (drizzle `findFirst` / `orderBy`) -/

def findPublisherByUser (db : DB) (userId : Nat) : Option Publisher :=
  db.publishers.find? (fun p => p.userId == userId)

def findExt (db : DB) (pubId : Nat) (slug : String) : Option Extension :=
  db.exts.find? (fun e => e.slug == slug && e.publisherId == pubId)

def findVersionPair (db : DB) (extId : Nat) (ver : String) : Option ExtVersion :=
  db.vers.find? (fun v => v.extensionId == extId && v.version == ver)

/-- Query `findFirst` with `orderBy desc(createdAt)`: the most recently created
version of the extension, over versions of every status. -/
def latestCreated (db : DB) (extId : Nat) : Option ExtVersion :=
  db.vers.foldl
    (fun acc v =>
      if v.extensionId == extId then
        match acc with
        | none => some v
        | some w => if w.createdAt ≤ v.createdAt then some v else some w
      else acc)
    none

/-- Query `findFirst` with `orderBy desc(publishedAt)` over published versions. -/
def latestPublished (db : DB) (extId : Nat) : Option ExtVersion :=
  db.vers.foldl
    (fun acc v =>
      if v.extensionId == extId && v.status == VerStatus.published then
        match acc with
        | none => some v
        | some w =>
          if (w.publishedAt.getD 0) ≤ (v.publishedAt.getD 0) then some v
          else some w
      else acc)
    none

/-! ## Object storage (`src/utils/storage.ts`) -/

def storageHas (st : List (String × List Nat)) (p : String) : Bool :=
  st.any (fun e => e.1 == p)

/-- Function `uploadExtensionBundleAsync`: builds the bundle path from the identifiers
and uploads with `upsert: false`, so an existing object at the path makes the
upload fail instead of being overwritten. Returns `(path, error?)` and the
bucket state. -/
def uploadExtensionBundle (st : List (String × List Nat))
    (publisherSlug extensionSlug version : String) (bytes : List Nat) :
    (String × Option String) × List (String × List Nat) :=
  let path := publisherSlug ++ "/" ++ extensionSlug ++ "/" ++ version ++ ".xt"
  if storageHas st path then
    (("", some "The resource already exists"), st)
  else
    ((path, none), st ++ [(path, bytes)])

/-! ## Version pipeline (`POST /publish/extensions/:slug/versions` and
`.../:version/publish`) -/

/-- Metadata of `publishVersionSchema` (the `manifest` is opaque data). -/
structure VersionMeta where
  version : String
  changelog : Option String
  minAppVersion : Option String
  maxAppVersion : Option String
  permissions : List String
  manifest : String
deriving DecidableEq, Repr

/-- The zod checks of `publishVersionSchema` that involve the fields the
pipeline uses: the version must be a valid semantic version and the changelog
at most 5000 characters. -/
def metaValid (m : VersionMeta) : Bool :=
  semverValid m.version &&
    (match m.changelog with | some c => c.length ≤ 5000 | none => true)

/-- A raw insert into `extension_versions`: the unique index
`extension_versions_unique_idx` on `(extensionId, version)` rejects a
duplicate pair regardless of status. -/
def dbInsertVersion (vers : List ExtVersion) (v : ExtVersion) :
    Option (List ExtVersion) :=
  if vers.any (fun w => w.extensionId == v.extensionId && w.version == v.version)
  then none
  else some (vers ++ [v])

/-- Hashing, upload and insert: the tail of the version-creation handler,
after all its checks passed. -/
def createVersionFinish (db : DB) (pub : Publisher) (ext : Extension)
    (bundle : List Nat) (meta : VersionMeta) (newId now : Nat) :
    RouteOut × DB :=
  let hash := sha256Hex bundle
  let up := uploadExtensionBundle db.storage pub.slug ext.slug meta.version bundle
  match up.1.2 with
  | some emsg => (.err 500 emsg, db)
  | none =>
    let v : ExtVersion :=
      { id := newId, extensionId := ext.id, version := meta.version,
        changelog := meta.changelog, bundlePath := up.1.1,
        bundleSize := bundle.length, bundleHash := hash,
        manifest := meta.manifest, minAppVersion := meta.minAppVersion,
        maxAppVersion := meta.maxAppVersion, permissions := meta.permissions,
        status := .draft, downloads := 0, createdAt := now,
        publishedAt := none }
    match dbInsertVersion db.vers v with
    | none =>
      (.err 500 "duplicate key value violates unique constraint",
       { db with storage := up.2 })
    | some vers' =>
      (.createdVersion v, { db with storage := up.2, vers := vers' })

/-- Route `POST /publish/extensions/:slug/versions` (the authenticated user is
`userId`; `newId`/`now` stand for the generated row id and the clock). -/
def createVersionRoute (db : DB) (userId : Nat) (slug : String)
    (bundle : List Nat) (meta : VersionMeta) (newId now : Nat) :
    RouteOut × DB :=
  match findPublisherByUser db userId with
  | none => (.err 404 "No publisher profile found", db)
  | some pub =>
    match findExt db pub.id slug with
    | none => (.err 404 "Extension not found", db)
    | some ext =>
      if !metaValid meta then (.err 400 "Invalid metadata format", db)
      else
        match findVersionPair db ext.id meta.version with
        | some _ => (.err 409 "Version already exists", db)
        | none =>
          match latestCreated db ext.id with
          | some l =>
            if !semverGtStr meta.version l.version then
              (.err 400 ("Version must be greater than " ++ l.version), db)
            else createVersionFinish db pub ext bundle meta newId now
          | none => createVersionFinish db pub ext bundle meta newId now

/-- Route `POST /publish/extensions/:slug/versions/:version/publish`: auto-publish
a draft version; on the extension's first publish (status still `draft`) the
extension is published and its publish time stamped, otherwise only its
update time is bumped. Both rows are stamped with the same `now`. -/
def publishVersionRoute (db : DB) (userId : Nat) (slug versionParam : String)
    (now : Nat) : RouteOut × DB :=
  match findPublisherByUser db userId with
  | none => (.err 404 "No publisher profile found", db)
  | some pub =>
    match findExt db pub.id slug with
    | none => (.err 404 "Extension not found", db)
    | some ext =>
      match findVersionPair db ext.id versionParam with
      | none => (.err 404 "Version not found", db)
      | some v =>
        if v.status ≠ .draft then
          (.err 400 "Version is not in draft status", db)
        else
          let vers' := db.vers.map fun w =>
            if w.id == v.id then
              { w with status := .published, publishedAt := some now }
            else w
          let exts' := db.exts.map fun e =>
            if e.id == ext.id then
              if ext.status = .draft then
                { e with status := .published, publishedAt := some now,
                         updatedAt := now }
              else { e with updatedAt := now }
            else e
          (.publishOk, { db with vers := vers', exts := exts' })

/-! ## Rating aggregator (`src/routes/reviews.ts`) -/

/-- JavaScript `x || null` on a nullable number: `0` and `null` both give
`null`. -/
def jsOrNull : Option Nat → Option Nat
  | some 0 => none
  | some n => some n
  | none => none

/-- The aggregate query of `updateExtensionRatingAsync`:
`ROUND(AVG(rating) * 100)::int` (SQL `ROUND` on a positive numeric is
half-away-from-zero, i.e. `⌊x + 1/2⌋`), `NULL` over zero rows, and
`count(*)`. -/
def ratingStats (reviews : List Review) (extId : Nat) : Option Nat × Nat :=
  let rs := reviews.filter (fun r => r.extensionId == extId)
  let count := rs.length
  let sum := (rs.map (·.rating)).sum
  (if count = 0 then none else some ((200 * sum + count) / (2 * count)), count)

/-- Function `updateExtensionRatingAsync`: write the recomputed aggregates (through
the JS `|| null` / `|| 0` coercions) onto the extension row. -/
def updateExtensionRating (db : DB) (extId : Nat) (now : Nat) : DB :=
  let st := ratingStats db.reviews extId
  { db with
    exts := db.exts.map fun e =>
      if e.id == extId then
        { e with averageRating := jsOrNull st.1, reviewCount := st.2,
                 updatedAt := now }
      else e }

/-- Route `POST /extensions/:slug/reviews`: upsert the caller's review, then
recompute the aggregates. The zod `reviewSchema` admits only integer ratings
in `1..5`. -/
def upsertReviewRoute (db : DB) (userId : Nat) (slug : String) (rating : Nat)
    (title content : Option String) (newId now : Nat) : RouteOut × DB :=
  if !(1 ≤ rating && rating ≤ 5) then (.err 400 "Invalid request", db)
  else
    match db.exts.find? (fun e => e.slug == slug) with
    | none => (.err 404 "Extension not found", db)
    | some ext =>
      match db.reviews.find?
          (fun r => r.extensionId == ext.id && r.userId == userId) with
      | some ex =>
        let r' := { ex with rating := rating, title := title,
                            content := content, updatedAt := now }
        let db1 := { db with
          reviews := db.reviews.map fun r => if r.id == ex.id then r' else r }
        (.reviewRes 200 r', updateExtensionRating db1 ext.id now)
      | none =>
        let r : Review :=
          { id := newId, extensionId := ext.id, userId := userId,
            rating := rating, title := title, content := content,
            createdAt := now, updatedAt := now }
        let db1 := { db with reviews := db.reviews ++ [r] }
        (.reviewRes 201 r, updateExtensionRating db1 ext.id now)

/-- Route `DELETE /extensions/:slug/reviews`: delete the caller's review (404 when
none), then recompute the aggregates. -/
def deleteReviewRoute (db : DB) (userId : Nat) (slug : String) (now : Nat) :
    RouteOut × DB :=
  match db.exts.find? (fun e => e.slug == slug) with
  | none => (.err 404 "Extension not found", db)
  | some ext =>
    if db.reviews.any (fun r => r.extensionId == ext.id && r.userId == userId)
    then
      let db1 := { db with
        reviews := db.reviews.filter
          (fun r => !(r.extensionId == ext.id && r.userId == userId)) }
      (.deleteOk, updateExtensionRating db1 ext.id now)
    else (.err 404 "Review not found", db)

/-! ## Download recorder (`recordDownloadAsync`, `GET /extensions/:slug/download`) -/

/-- Function `recordDownloadAsync`: append the download event first; an insertion
failure (`insertOk = false`) is caught and aborts the recording with no
counter change. On success both counters get the SQL increment
`x = x + 1` applied to the stored value. -/
def recordDownload (db : DB) (extId verId : Nat) (userId : Option Nat)
    (insertOk : Bool) (now : Nat) : DB :=
  if insertOk then
    let ev : DlEvent :=
      { extensionId := extId, versionId := verId, userId := userId,
        createdAt := now }
    let db1 := { db with downloads := db.downloads ++ [ev] }
    let db2 := { db1 with
      exts := db1.exts.map fun (e : Extension) =>
        if e.id == extId then { e with totalDownloads := e.totalDownloads + 1 }
        else e }
    { db2 with
      vers := db2.vers.map fun (v : ExtVersion) =>
        if v.id == verId then { v with downloads := v.downloads + 1 } else v }
  else db

/-- Route `GET /extensions/:slug/download`: resolve the published extension and
version, build the signed URL (`urlOk` abstracts the storage collaborator's
answer), then record the download without awaiting it; the JSON response is
built from the version row and the URL only. -/
def downloadRoute (db : DB) (slug : String) (requested : Option String)
    (userId : Option Nat) (urlOk insertOk : Bool) (now : Nat) :
    RouteOut × DB :=
  match db.exts.find?
      (fun e => e.slug == slug && e.status == ExtStatus.published) with
  | none => (.err 404 "Extension not found", db)
  | some ext =>
    let v? : Option ExtVersion := match requested with
      | some rv => db.vers.find? (fun v =>
          v.extensionId == ext.id && v.version == rv &&
            v.status == VerStatus.published)
      | none => latestPublished db ext.id
    match v? with
    | none => (.err 404 "Version not found", db)
    | some v =>
      if urlOk then
        (.downloadInfo ("signed:" ++ v.bundlePath) v.version v.bundleSize
           v.bundleHash,
         recordDownload db ext.id v.id userId insertOk now)
      else (.err 500 "Failed to generate download URL", db)

/-! ## Identity resolver (`src/middleware/auth.ts`) -/

/-- JavaScript `startsWith` (structural, so it reduces in the kernel). -/
def strStarts (s p : String) : Bool := p.data.isPrefixOf s.data

/-- JavaScript `slice(n)` on a string. -/
def strDrop (s : String) (n : Nat) : String := String.mk (s.data.drop n)

inductive AuthOut where
  | unauthenticated (code : Nat) (msg : String)
  | okKey (publisherId userId : Nat) (slug : String)
  | okSession (userId : Nat)
deriving DecidableEq, Repr

/-- Middleware `requireApiKeyOrAuthAsync`. Here `authHeader` is the `Authorization` header;
`session` abstracts the identity provider's verdict on a session token;
`bumpOk` abstracts whether the fire-and-forget last-used update succeeds. -/
def requireApiKeyOrAuth (db : DB) (authHeader : Option String) (now : Nat)
    (session : Option Nat) (bumpOk : Bool) : AuthOut × DB :=
  match authHeader with
  | none => (.unauthenticated 401 "Missing or invalid authorization header", db)
  | some h =>
    if !strStarts h "Bearer " then
      (.unauthenticated 401 "Missing or invalid authorization header", db)
    else
      let token := strDrop h 7
      if strStarts token "hxmp_" then
        let keyHash := sha256Hex (utf8Bytes token)
        match db.apiKeys.find?
            (fun k => k.keyHash == keyHash && now < k.expiresAt) with
        | none => (.unauthenticated 401 "Invalid or expired API key", db)
        | some k =>
          let db' :=
            if bumpOk then
              { db with apiKeys := db.apiKeys.map fun j =>
                  if j.id == k.id then { j with lastUsedAt := some now }
                  else j }
            else db
          match db.publishers.find? (fun p => p.id == k.publisherId) with
          | some p => (.okKey p.id p.userId p.slug, db')
          | none => (.unauthenticated 500 "Internal error", db')
      else
        match session with
        | some uid => (.okSession uid, db)
        | none => (.unauthenticated 401 "Invalid or expired token", db)

/-! ## Extension catalog (`POST` / `PATCH /publish/extensions`) -/

structure ExtSpec where
  publicKey : String
  name : String
  slug : String
  shortDescription : String
  description : Option String
  categorySlug : Option String
  tags : List String
deriving DecidableEq, Repr

/-- Route `POST /publish/extensions`: create a new extension in `draft` status
(`schemaOk` abstracts the zod validation of the body). -/
def createExtensionRoute (db : DB) (userId : Nat) (spec : ExtSpec)
    (schemaOk : Bool) (newId now : Nat) : RouteOut × DB :=
  if !schemaOk then (.err 400 "Invalid request", db)
  else
    match findPublisherByUser db userId with
    | none => (.err 404 "No publisher profile found. Create one first.", db)
    | some pub =>
      if db.exts.any (fun e => e.slug == spec.slug) then
        (.err 409 "Extension slug is already taken", db)
      else if db.exts.any (fun e => e.publicKey == spec.publicKey) then
        (.err 409 "Public key is already registered", db)
      else
        let categoryId := match spec.categorySlug with
          | some cs => (db.cats.find? (fun c => c.slug == cs)).map (·.id)
          | none => none
        let ext : Extension :=
          { id := newId, publisherId := pub.id, categoryId := categoryId,
            extensionId := pub.slug ++ "/" ++ spec.slug,
            publicKey := spec.publicKey, name := spec.name, slug := spec.slug,
            shortDescription := spec.shortDescription,
            description := spec.description.getD "", iconUrl := none,
            status := .draft, verified := false, totalDownloads := 0,
            averageRating := none, reviewCount := 0, tags := spec.tags,
            createdAt := now, updatedAt := now, publishedAt := none }
        (.createdExt ext, { db with exts := db.exts ++ [ext] })

/-- Patch body of `updateExtensionSchema`: `createExtensionSchema.partial()` minus
`publicKey` and `slug`; a present-but-falsy `categorySlug` clears the
category. -/
structure ExtPatch where
  name : Option String
  shortDescription : Option String
  description : Option String
  categorySlug : Option String
  tags : Option (List String)
deriving DecidableEq, Repr

/-- Route `PATCH /publish/extensions/:slug` (`schemaOk` abstracts zod): spreads the
patch over the row — `status`, `slug` and `publicKey` are not patchable. -/
def updateExtensionRoute (db : DB) (userId : Nat) (slug : String)
    (patch : ExtPatch) (schemaOk : Bool) (now : Nat) : RouteOut × DB :=
  if !schemaOk then (.err 400 "Invalid request", db)
  else
    match findPublisherByUser db userId with
    | none => (.err 404 "No publisher profile found", db)
    | some pub =>
      match findExt db pub.id slug with
      | none => (.err 404 "Extension not found", db)
      | some ext =>
        let categoryId := match patch.categorySlug with
          | none => ext.categoryId
          | some cs =>
            if cs = "" then none
            else (db.cats.find? (fun c => c.slug == cs)).map (·.id)
        let upd := fun (e : Extension) =>
          { e with name := patch.name.getD e.name,
                   shortDescription :=
                     patch.shortDescription.getD e.shortDescription,
                   description := patch.description.getD e.description,
                   tags := patch.tags.getD e.tags,
                   categoryId := categoryId, updatedAt := now }
        (.updatedExt (upd ext),
         { db with exts := db.exts.map fun e =>
             if e.id == ext.id then upd e else e })

/-! ## Invariants and step relations -/

/-- Extension-publication invariant: a published extension has at least one
published version. -/
def ExtVerInv (db : DB) : Prop :=
  ∀ e ∈ db.exts, e.status = ExtStatus.published →
    ∃ v ∈ db.vers, v.extensionId = e.id ∧ v.status = VerStatus.published

/-- Every stored review rating is in the schema range 1..5. -/
def RatingsInRange (db : DB) : Prop :=
  ∀ r ∈ db.reviews, 1 ≤ r.rating ∧ r.rating ≤ 5

/-- At most one review per (extension, identity), the unique-index shape of
`extension_reviews_user_extension_idx`. -/
def ReviewsUnique (db : DB) : Prop :=
  db.reviews.Pairwise
    (fun a b => ¬(a.extensionId = b.extensionId ∧ a.userId = b.userId))

/-- At most one version per (extension, version string), the unique-index
shape of `extension_versions_unique_idx`. -/
def PairUnique (vers : List ExtVersion) : Prop :=
  vers.Pairwise (fun a b => ¬(a.extensionId = b.extensionId ∧ a.version = b.version))

/-- Aggregate well-formedness: the average is null exactly when there are no
reviews, and otherwise sits in 100..500. -/
def GoodAgg (db : DB) : Prop :=
  ∀ e ∈ db.exts, (e.averageRating = none ↔ e.reviewCount = 0) ∧
    ∀ n, e.averageRating = some n → 100 ≤ n ∧ n ≤ 500

/-- Reviews of one extension. -/
def reviewsOf (db : DB) (extId : Nat) : List Review :=
  db.reviews.filter (fun r => r.extensionId == extId)

/-- The specification's aggregate formula: `round(mean(rating) * 100)` over
the reviews, null when there are none (`round` half away from zero). -/
def specAvg (rs : List Review) : Option Nat :=
  if rs.length = 0 then none
  else some ((200 * (rs.map (·.rating)).sum + rs.length) / (2 * rs.length))

/-- Character-level check that a string is lowercase hexadecimal. -/
def isHexCh (c : Char) : Bool := "0123456789abcdef".data.contains c

def isLowerHexStr (s : String) : Bool := s.data.all isHexCh

/-- One mutating operation other than version publish. -/
inductive StepNP : DB → DB → Prop where
  | createExt (db : DB) (uid : Nat) (spec : ExtSpec) (ok : Bool) (newId now : Nat) :
      StepNP db (createExtensionRoute db uid spec ok newId now).2
  | updateExt (db : DB) (uid : Nat) (slug : String) (patch : ExtPatch)
      (ok : Bool) (now : Nat) :
      StepNP db (updateExtensionRoute db uid slug patch ok now).2
  | createVer (db : DB) (uid : Nat) (slug : String) (bundle : List Nat)
      (meta : VersionMeta) (newId now : Nat) :
      StepNP db (createVersionRoute db uid slug bundle meta newId now).2
  | upsertRev (db : DB) (uid : Nat) (slug : String) (rating : Nat)
      (title content : Option String) (newId now : Nat) :
      StepNP db (upsertReviewRoute db uid slug rating title content newId now).2
  | deleteRev (db : DB) (uid : Nat) (slug : String) (now : Nat) :
      StepNP db (deleteReviewRoute db uid slug now).2
  | download (db : DB) (slug : String) (req : Option String) (uid : Option Nat)
      (urlOk insertOk : Bool) (now : Nat) :
      StepNP db (downloadRoute db slug req uid urlOk insertOk now).2
  | record (db : DB) (extId verId : Nat) (uid : Option Nat) (ok : Bool) (now : Nat) :
      StepNP db (recordDownload db extId verId uid ok now)
  | auth (db : DB) (hdr : Option String) (now : Nat) (sess : Option Nat) (b : Bool) :
      StepNP db (requireApiKeyOrAuth db hdr now sess b).2

/-- Any modeled mutating operation. -/
inductive Step : DB → DB → Prop where
  | np {db db' : DB} (h : StepNP db db') : Step db db'
  | publish (db : DB) (uid : Nat) (slug ver : String) (now : Nat) :
      Step db (publishVersionRoute db uid slug ver now).2

/-- Status-frame: after the step, every extension row either keeps the status
and publish time of a row with its id, or is a fresh draft. -/
def ExtStatusFrame (db db' : DB) : Prop :=
  ∀ e' ∈ db'.exts,
    (∃ e ∈ db.exts, e.id = e'.id ∧ e'.status = e.status ∧
      e'.publishedAt = e.publishedAt) ∨
    (e'.status = .draft ∧ e'.publishedAt = none)

/-- How a non-publish step may touch the extensions table: unchanged, mapped
through a (status, publish-time, id)-preserving edit, or extended with a
fresh draft. -/
def ExtsTame (l l' : List Extension) : Prop :=
  l' = l ∨
  (∃ f, l' = l.map f ∧
    ∀ e, (f e).id = e.id ∧ (f e).status = e.status ∧
      (f e).publishedAt = e.publishedAt) ∨
  (∃ e0, e0.status = ExtStatus.draft ∧ e0.publishedAt = none ∧ l' = l ++ [e0])

/-- How a non-publish step may touch the versions table: unchanged, mapped
through an (owner, status)-preserving edit, or extended. -/
def VersTame (l l' : List ExtVersion) : Prop :=
  l' = l ∨
  (∃ g, l' = l.map g ∧
    ∀ v, (g v).extensionId = v.extensionId ∧ (g v).status = v.status) ∨
  (∃ v0, l' = l ++ [v0])

/-! ## Sample rows for concrete witnesses -/

def pubW : Publisher := ⟨1, 10, "acme"⟩

def extW : Extension :=
  { id := 1, publisherId := 1, categoryId := none, extensionId := "acme/tool",
    publicKey := "pk1", name := "Tool", slug := "tool",
    shortDescription := "a tool for tooling", description := "",
    iconUrl := none, status := .draft, verified := false, totalDownloads := 0,
    averageRating := none, reviewCount := 0, tags := [], createdAt := 1,
    updatedAt := 1, publishedAt := none }

def verW : ExtVersion :=
  { id := 1, extensionId := 1, version := "2.0.0", changelog := none,
    bundlePath := "acme/tool/2.0.0.xt", bundleSize := 3, bundleHash := "h",
    manifest := "m", minAppVersion := none, maxAppVersion := none,
    permissions := [], status := .draft, downloads := 0, createdAt := 5,
    publishedAt := none }

/-- A state with one publisher, one draft extension and one draft version
"2.0.0" whose bundle sits in storage. -/
def dbW : DB :=
  ⟨[pubW], [extW], [verW], [], [], [], [], [("acme/tool/2.0.0.xt", [0, 1, 2])]⟩

def metaW15 : VersionMeta := ⟨"1.5.0", none, none, none, [], "m"⟩

def metaW30 : VersionMeta := ⟨"3.0.0", none, none, none, [], "m"⟩

/-- The state after the "2.0.0" draft has been published at time 6. -/
def dbW3 : DB :=
  ⟨[pubW],
   [{ extW with status := .published, publishedAt := some 6, updatedAt := 6 }],
   [{ verW with status := .published, publishedAt := some 6 }],
   [], [], [], [], [("acme/tool/2.0.0.xt", [0, 1, 2])]⟩

/-! ## Iterated recorder, review operation sequences and decidability -/

/-- Repeated successful download recordings, for the cumulative counter
statement. -/
def recordIter (db : DB) (extId verId : Nat) (uid : Option Nat) (now : Nat) :
    Nat → DB
  | 0 => db
  | n + 1 => recordDownload (recordIter db extId verId uid now n)
      extId verId uid true now

/-- An API key whose hash matches the credential "hxmp_test" but which
expired at time 5. -/
def keyW : ApiKey := ⟨1, 1, sha256Hex (utf8Bytes "hxmp_test"), 5, none⟩

def dbK6 : DB := ⟨[pubW], [], [], [], [], [keyW], [], []⟩

def dbK6e : DB := ⟨[pubW], [], [], [], [], [], [], []⟩

/-- Primary-key uniqueness of review rows (the `id uuid primaryKey`
column). -/
def ReviewIdsUnique (db : DB) : Prop :=
  db.reviews.Pairwise (fun a b => a.id ≠ b.id)

instance (db : DB) : Decidable (RatingsInRange db) := by
  unfold RatingsInRange; infer_instance

instance (db : DB) : Decidable (ReviewsUnique db) := by
  unfold ReviewsUnique; infer_instance

instance (db : DB) : Decidable (ReviewIdsUnique db) := by
  unfold ReviewIdsUnique; infer_instance

instance (db : DB) : Decidable (GoodAgg db) := by
  unfold GoodAgg; infer_instance

/-! ## Review operation sequences -/

/-- One review mutation request: upsert or delete. -/
inductive ReviewOp where
  | upsert (uid : Nat) (slug : String) (rating : Nat)
      (title content : Option String) (newId now : Nat)
  | del (uid : Nat) (slug : String) (now : Nat)

def applyReviewOp (db : DB) : ReviewOp → DB
  | .upsert uid slug rating title content newId now =>
    (upsertReviewRoute db uid slug rating title content newId now).2
  | .del uid slug now => (deleteReviewRoute db uid slug now).2

def applyReviewOps (db : DB) (ops : List ReviewOp) : DB :=
  ops.foldl applyReviewOp db

instance (db : DB) : Decidable (ExtVerInv db) := by
  unfold ExtVerInv; infer_instance

instance (db db' : DB) : Decidable (ExtStatusFrame db db') := by
  unfold ExtStatusFrame; infer_instance

/-! ## Claim theorems -/

/-- C3: publishing a version that does not exist fails `NotFound` (404) with
the state untouched, and publishing a version whose status is not `draft` —
in particular an already-published one — fails `InvalidState` (400) with no
writes at all. -/
theorem c3_publish_error_paths (db : DB) (uid : Nat) (slug ver : String)
    (now : Nat) (pub : Publisher) (ext : Extension)
    (hpub : findPublisherByUser db uid = some pub)
    (hext : findExt db pub.id slug = some ext) :
    (findVersionPair db ext.id ver = none →
      publishVersionRoute db uid slug ver now =
        (.err 404 "Version not found", db)) ∧
    (∀ v, findVersionPair db ext.id ver = some v → v.status ≠ .draft →
      publishVersionRoute db uid slug ver now =
        (.err 400 "Version is not in draft status", db)) := by
  constructor
  · intro hv
    simp [publishVersionRoute, hpub, hext, hv]
  · intro v hv hs
    simp [publishVersionRoute, hpub, hext, hv, hs]

/-- C3 witness: in the concrete state whose only version of `tool` is the
published "2.0.0", publishing "9.9.9" is 404 and republishing "2.0.0" is the
`InvalidState` 400, both leaving the state identical. -/
theorem c3_publish_error_paths_witness :
    (publishVersionRoute dbW3 10 "tool" "9.9.9" 7 =
      (.err 404 "Version not found", dbW3)) ∧
    (publishVersionRoute dbW3 10 "tool" "2.0.0" 7 =
      (.err 400 "Version is not in draft status", dbW3)) :=
  ⟨(c3_publish_error_paths dbW3 10 "tool" "9.9.9" 7 pubW
      { extW with status := .published, publishedAt := some 6, updatedAt := 6 }
      (by decide) (by decide)).1 (by decide),
   (c3_publish_error_paths dbW3 10 "tool" "2.0.0" 7 pubW
      { extW with status := .published, publishedAt := some 6, updatedAt := 6 }
      (by decide) (by decide)).2
     { verW with status := .published, publishedAt := some 6 }
     (by decide) (by decide)⟩

/-- C10: a successful publish changes exactly the version row's status and
publish time and the extension row's status, publish time and update time
(the latter two only on a first publish), every other field of both rows and
every other table verbatim unchanged; both rows are stamped with the same
instant `now`. -/
theorem c10_publish_frame (db : DB) (uid : Nat) (slug ver : String)
    (now : Nat) (pub : Publisher) (ext : Extension) (v : ExtVersion)
    (hpub : findPublisherByUser db uid = some pub)
    (hext : findExt db pub.id slug = some ext)
    (hv : findVersionPair db ext.id ver = some v)
    (hd : v.status = .draft) :
    publishVersionRoute db uid slug ver now =
      (.publishOk,
       { db with
         vers := db.vers.map fun w =>
           if w.id = v.id then
             { w with status := .published, publishedAt := some now }
           else w,
         exts := db.exts.map fun e =>
           if e.id = ext.id then
             if ext.status = .draft then
               { e with status := .published, publishedAt := some now,
                        updatedAt := now }
             else { e with updatedAt := now }
           else e }) := by
  simp [publishVersionRoute, hpub, hext, hv, hd]

/-- C10 witness: the frame equality instantiated on the concrete draft state,
first-publish case. -/
theorem c10_publish_frame_witness :
    publishVersionRoute dbW 10 "tool" "2.0.0" 7 =
      (.publishOk,
       { dbW with
         vers := dbW.vers.map fun w =>
           if w.id = 1 then
             { w with status := .published, publishedAt := some 7 }
           else w,
         exts := dbW.exts.map fun e =>
           if e.id = 1 then
             if extW.status = .draft then
               { e with status := .published, publishedAt := some 7,
                        updatedAt := 7 }
             else { e with updatedAt := 7 }
           else e }) :=
  c10_publish_frame dbW 10 "tool" "2.0.0" 7 pubW extW verW
    (by decide) (by decide) (by decide) (by decide)

/-- In every outcome of the post-check tail of version creation, the response
code is 500 or 201, never 400. -/
theorem createVersionFinish_code_ne (db : DB) (pub : Publisher)
    (ext : Extension) (bundle : List Nat) (meta : VersionMeta)
    (newId now : Nat) :
    (createVersionFinish db pub ext bundle meta newId now).1.code ≠ 400 := by
  simp only [createVersionFinish, uploadExtensionBundle]
  split_ifs with hs
  · simp [RouteOut.code]
  · split
    · simp [RouteOut.code]
    · split <;> simp [RouteOut.code]

/-- C1 counterexample: in `dbW` the only version of `tool` is the unpublished
draft "2.0.0", so no *published* version is ≥ "1.5.0" and the claim says the
creation of "1.5.0" must succeed; the code still rejects it with the
version-ordering `InvalidInput`, because the check runs against the most
recently created version of any status. -/
theorem c1_counterexample :
    (createVersionRoute dbW 10 "tool" [1, 2, 3] metaW15 2 6).1 =
        .err 400 "Version must be greater than 2.0.0" ∧
    (∀ v ∈ dbW.vers, v.status ≠ VerStatus.published) := by
  constructor
  · decide
  · decide

/-- C1 as amended: with the request well-formed (publisher and extension
found, valid semver, no duplicate pair), creating a version fails with the
ordering 400 exactly when the extension has a most recently created version
— of any status, drafts included — whose semantic version is not strictly
below the new one. -/
theorem c1_amended_ordering (db : DB) (uid : Nat) (slug : String)
    (bundle : List Nat) (meta : VersionMeta) (newId now : Nat)
    (pub : Publisher) (ext : Extension)
    (hpub : findPublisherByUser db uid = some pub)
    (hext : findExt db pub.id slug = some ext)
    (hmeta : metaValid meta = true)
    (hnodup : findVersionPair db ext.id meta.version = none) :
    (createVersionRoute db uid slug bundle meta newId now).1.code = 400 ↔
      ∃ l, latestCreated db ext.id = some l ∧
        semverGtStr meta.version l.version = false := by
  simp only [createVersionRoute, hpub, hext, hmeta, hnodup, Bool.not_true,
    Bool.false_eq_true, if_false]
  cases hl : latestCreated db ext.id with
  | none =>
    simp [createVersionFinish_code_ne]
  | some l =>
    by_cases hgt : semverGtStr meta.version l.version = true
    · simp [hgt, createVersionFinish_code_ne]
    · simp only [Bool.not_eq_true] at hgt
      simp [hgt, RouteOut.code]

/-- C1 amended witness: the concrete draft "2.0.0" blocks "1.5.0" (400 with
the latest-created version not below it), while "3.0.0" is not blocked. -/
theorem c1_amended_ordering_witness :
    ((createVersionRoute dbW 10 "tool" [1, 2, 3] metaW15 2 6).1.code = 400 ↔
      ∃ l, latestCreated dbW 1 = some l ∧
        semverGtStr "1.5.0" l.version = false) ∧
    ((createVersionRoute dbW 10 "tool" [1, 2, 3] metaW30 2 6).1.code = 400 ↔
      ∃ l, latestCreated dbW 1 = some l ∧
        semverGtStr "3.0.0" l.version = false) :=
  ⟨c1_amended_ordering dbW 10 "tool" [1, 2, 3] metaW15 2 6 pubW extW
      (by decide) (by decide) (by decide) (by decide),
   c1_amended_ordering dbW 10 "tool" [1, 2, 3] metaW30 2 6 pubW extW
      (by decide) (by decide) (by decide) (by decide)⟩

/-- C4: creating a version whose (extension, versionString) pair already
exists fails `Conflict` (409) with the state untouched, whatever the existing
version's status; and the unique-index backstop `dbInsertVersion` rejects an
insert exactly when the pair exists and can never produce a duplicate pair. -/
theorem c4_duplicate_version_conflict (db : DB) (uid : Nat) (slug : String)
    (bundle : List Nat) (meta : VersionMeta) (newId now : Nat)
    (pub : Publisher) (ext : Extension) (v0 : ExtVersion)
    (hpub : findPublisherByUser db uid = some pub)
    (hext : findExt db pub.id slug = some ext)
    (hmeta : metaValid meta = true)
    (hdup : findVersionPair db ext.id meta.version = some v0) :
    createVersionRoute db uid slug bundle meta newId now =
      (.err 409 "Version already exists", db) ∧
    (∀ (vers : List ExtVersion) (w : ExtVersion), PairUnique vers →
      (dbInsertVersion vers w = none ↔
        ∃ u ∈ vers, u.extensionId = w.extensionId ∧ u.version = w.version) ∧
      (∀ vers', dbInsertVersion vers w = some vers' → PairUnique vers')) := by
  refine ⟨by simp [createVersionRoute, hpub, hext, hmeta, hdup], ?_⟩
  intro vers w hPU
  constructor
  · unfold dbInsertVersion
    by_cases hany : (vers.any fun u =>
        u.extensionId == w.extensionId && u.version == w.version) = true
    · simp only [hany, if_true, true_iff]
      obtain ⟨u, hu, hp⟩ := List.any_eq_true.mp hany
      exact ⟨u, hu, by simpa using hp⟩
    · simp only [Bool.not_eq_true] at hany
      simp only [hany, Bool.false_eq_true, if_false]
      refine ⟨fun h => by simp at h, ?_⟩
      rintro ⟨u, hu, h1, h2⟩
      have := List.any_eq_false.mp hany u hu
      simp [h1, h2] at this
  · intro vers' hins
    unfold dbInsertVersion at hins
    by_cases hany : (vers.any fun u =>
        u.extensionId == w.extensionId && u.version == w.version) = true
    · simp [hany] at hins
    · simp only [Bool.not_eq_true] at hany
      simp only [hany, Bool.false_eq_true, if_false, Option.some.injEq] at hins
      subst hins
      refine List.pairwise_append.mpr ⟨hPU, List.pairwise_singleton _ _, ?_⟩
      intro a ha b hb
      have hb' : b = w := by simpa using hb
      subst hb'
      have := List.any_eq_false.mp hany a ha
      intro ⟨h1, h2⟩
      simp [h1, h2] at this

/-- C4 witness: the duplicate "2.0.0" (a draft) is rejected 409 on the
concrete state, and the backstop facts instantiated on its version table. -/
theorem c4_duplicate_version_conflict_witness :
    createVersionRoute dbW 10 "tool" [1, 2, 3] ⟨"2.0.0", none, none, none, [], "m"⟩ 2 6 =
      (.err 409 "Version already exists", dbW) :=
  (c4_duplicate_version_conflict dbW 10 "tool" [1, 2, 3]
    ⟨"2.0.0", none, none, none, [], "m"⟩ 2 6 pubW extW verW
    (by decide) (by decide) (by decide) (by decide)).1

/-- Closed form of a successful download recording. -/
theorem recordDownload_true_eq (db : DB) (extId verId : Nat)
    (uid : Option Nat) (now : Nat) :
    recordDownload db extId verId uid true now =
      { db with
        downloads := db.downloads ++
          [{ extensionId := extId, versionId := verId, userId := uid,
             createdAt := now }],
        exts := db.exts.map fun e =>
          if e.id = extId then
            { e with totalDownloads := e.totalDownloads + 1 }
          else e,
        vers := db.vers.map fun v =>
          if v.id = verId then { v with downloads := v.downloads + 1 }
          else v } := by
  simp only [recordDownload, if_true]
  congr 1
  · apply List.map_congr_left
    intro e _
    by_cases h : e.id = extId <;> simp [h]
  · apply List.map_congr_left
    intro v _
    by_cases h : v.id = verId <;> simp [h]


/-- C8: a failed event insert leaves the state completely unchanged (no
counter moves without an event); a successful recording appends exactly one
event and applies the in-database increment `x + 1` to the stored counters of
exactly the target extension and version rows, touching nothing else; the
download-URL response is identical whether the recording succeeds or fails;
and n successful recordings raise both counters by exactly n. -/
theorem c8_download_recorder (db : DB) (extId verId : Nat) (uid : Option Nat)
    (now : Nat) :
    recordDownload db extId verId uid false now = db ∧
    recordDownload db extId verId uid true now =
      { db with
        downloads := db.downloads ++
          [{ extensionId := extId, versionId := verId, userId := uid,
             createdAt := now }],
        exts := db.exts.map fun e =>
          if e.id = extId then
            { e with totalDownloads := e.totalDownloads + 1 }
          else e,
        vers := db.vers.map fun v =>
          if v.id = verId then { v with downloads := v.downloads + 1 }
          else v } ∧
    (∀ (slug : String) (req : Option String) (urlOk i1 i2 : Bool),
      (downloadRoute db slug req uid urlOk i1 now).1 =
        (downloadRoute db slug req uid urlOk i2 now).1) ∧
    (∀ n : Nat,
      (recordIter db extId verId uid now n).exts = db.exts.map fun e =>
        if e.id = extId then
          { e with totalDownloads := e.totalDownloads + n }
        else e) ∧
    (∀ n : Nat,
      (recordIter db extId verId uid now n).vers = db.vers.map fun v =>
        if v.id = verId then { v with downloads := v.downloads + n }
        else v) := by
  have hrec : ∀ (d : DB), recordDownload d extId verId uid true now =
      { d with
        downloads := d.downloads ++
          [{ extensionId := extId, versionId := verId, userId := uid,
             createdAt := now }],
        exts := d.exts.map fun e =>
          if e.id = extId then
            { e with totalDownloads := e.totalDownloads + 1 }
          else e,
        vers := d.vers.map fun v =>
          if v.id = verId then { v with downloads := v.downloads + 1 }
          else v } := fun d => recordDownload_true_eq d extId verId uid now
  refine ⟨by simp [recordDownload], hrec db, ?_, ?_, ?_⟩
  · intro slug req urlOk i1 i2
    unfold downloadRoute
    cases hfe : db.exts.find?
        (fun e => e.slug == slug && e.status == ExtStatus.published) with
    | none => rfl
    | some ext =>
      dsimp only
      cases req with
      | none =>
        cases hw : latestPublished db ext.id with
        | none => simp [hw]
        | some v => cases urlOk <;> simp [hw]
      | some rv =>
        cases hw : db.vers.find? (fun v =>
            v.extensionId == ext.id && v.version == rv &&
              v.status == VerStatus.published) with
        | none => simp [hw]
        | some v => cases urlOk <;> simp [hw]
  · intro n
    induction n with
    | zero =>
      simp only [recordIter]
      rw [show (fun e : Extension =>
          if e.id = extId then
            { e with totalDownloads := e.totalDownloads + 0 }
          else e) = fun e => e from funext fun e => by split_ifs <;> simp]
      simp
    | succ k ih =>
      simp only [recordIter]
      rw [hrec]
      dsimp only
      rw [ih, List.map_map]
      apply List.map_congr_left
      intro e _
      by_cases h : e.id = extId <;> simp [Function.comp, h, Nat.add_assoc]
  · intro n
    induction n with
    | zero =>
      simp only [recordIter]
      rw [show (fun v : ExtVersion =>
          if v.id = verId then { v with downloads := v.downloads + 0 }
          else v) = fun v => v from funext fun v => by split_ifs <;> simp]
      simp
    | succ k ih =>
      simp only [recordIter]
      rw [hrec]
      dsimp only
      rw [ih, List.map_map]
      apply List.map_congr_left
      intro v _
      by_cases h : v.id = verId <;> simp [Function.comp, h, Nat.add_assoc]

/-! ## Shape lemmas for the step relation -/

theorem extsTame_map_if (l : List Extension) (tid : Nat)
    (u : Extension → Extension)
    (hu : ∀ e, (u e).id = e.id ∧ (u e).status = e.status ∧
      (u e).publishedAt = e.publishedAt) :
    ExtsTame l (l.map fun e => if e.id == tid then u e else e) := by
  right; left
  refine ⟨_, rfl, fun e => ?_⟩
  by_cases h : (e.id == tid) = true <;> simp [h, hu e]

theorem updateRating_exts_tame (db : DB) (extId now : Nat) :
    ExtsTame db.exts (updateExtensionRating db extId now).exts := by
  right; left
  refine ⟨_, rfl, fun e => ?_⟩
  by_cases h : (e.id == extId) = true <;> simp [h]

theorem recordDownload_tame (db : DB) (extId verId : Nat) (uid : Option Nat)
    (ok : Bool) (now : Nat) :
    ExtsTame db.exts (recordDownload db extId verId uid ok now).exts ∧
    VersTame db.vers (recordDownload db extId verId uid ok now).vers := by
  cases ok with
  | false => exact ⟨Or.inl rfl, Or.inl rfl⟩
  | true =>
    rw [recordDownload_true_eq]
    constructor
    · right; left
      refine ⟨_, rfl, fun e => ?_⟩
      by_cases h : e.id = extId <;> simp [h]
    · right; left
      refine ⟨_, rfl, fun v => ?_⟩
      by_cases h : v.id = verId <;> simp [h]

theorem createVersionFinish_tame (db : DB) (pub : Publisher) (ext : Extension)
    (bundle : List Nat) (meta : VersionMeta) (newId now : Nat) :
    ExtsTame db.exts (createVersionFinish db pub ext bundle meta newId now).2.exts ∧
    VersTame db.vers (createVersionFinish db pub ext bundle meta newId now).2.vers := by
  simp only [createVersionFinish, uploadExtensionBundle]
  split_ifs with hs
  · exact ⟨Or.inl rfl, Or.inl rfl⟩
  · split
    · exact ⟨Or.inl rfl, Or.inl rfl⟩
    · split
      · exact ⟨Or.inl rfl, Or.inl rfl⟩
      · rename_i vers' heq
        refine ⟨Or.inl rfl, ?_⟩
        unfold dbInsertVersion at heq
        split at heq
        · cases heq
        · injection heq with h
          exact Or.inr (Or.inr ⟨_, h.symm⟩)

theorem stepNP_tame {db db' : DB} (h : StepNP db db') :
    ExtsTame db.exts db'.exts ∧ VersTame db.vers db'.vers := by
  cases h with
  | createExt uid spec ok newId now =>
    simp only [createExtensionRoute]
    repeat' split
    all_goals
      first
        | exact ⟨Or.inl rfl, Or.inl rfl⟩
        | exact ⟨Or.inr (Or.inr ⟨_, rfl, rfl, rfl⟩), Or.inl rfl⟩
  | updateExt uid slug patch ok now =>
    simp only [updateExtensionRoute]
    repeat' split
    all_goals
      first
        | exact ⟨Or.inl rfl, Or.inl rfl⟩
        | exact ⟨extsTame_map_if _ _ _ (fun e => ⟨rfl, rfl, rfl⟩), Or.inl rfl⟩
  | createVer uid slug bundle meta newId now =>
    simp only [createVersionRoute]
    repeat' split
    all_goals
      first
        | exact ⟨Or.inl rfl, Or.inl rfl⟩
        | exact createVersionFinish_tame _ _ _ _ _ _ _
  | upsertRev uid slug rating title content newId now =>
    simp only [upsertReviewRoute]
    repeat' split
    all_goals
      first
        | exact ⟨Or.inl rfl, Or.inl rfl⟩
        | exact ⟨updateRating_exts_tame _ _ _, Or.inl rfl⟩
  | deleteRev uid slug now =>
    simp only [deleteReviewRoute]
    repeat' split
    all_goals
      first
        | exact ⟨Or.inl rfl, Or.inl rfl⟩
        | exact ⟨updateRating_exts_tame _ _ _, Or.inl rfl⟩
  | download slug req uid urlOk insertOk now =>
    simp only [downloadRoute]
    repeat' split
    all_goals
      first
        | exact ⟨Or.inl rfl, Or.inl rfl⟩
        | exact recordDownload_tame _ _ _ _ _ _
  | record extId verId uid ok now =>
    exact recordDownload_tame _ _ _ _ _ _
  | auth hdr now sess b =>
    simp only [requireApiKeyOrAuth]
    repeat' split
    all_goals exact ⟨Or.inl rfl, Or.inl rfl⟩

/-- A published-version witness survives any tame change of the versions
table. -/
theorem versTame_keep {l l' : List ExtVersion} (h : VersTame l l') {i : Nat}
    (hw : ∃ v ∈ l, v.extensionId = i ∧ v.status = VerStatus.published) :
    ∃ v ∈ l', v.extensionId = i ∧ v.status = VerStatus.published := by
  obtain ⟨v, hv, hvi, hvs⟩ := hw
  rcases h with rfl | ⟨g, rfl, hg⟩ | ⟨v0, rfl⟩
  · exact ⟨v, hv, hvi, hvs⟩
  · exact ⟨g v, List.mem_map_of_mem g hv, (hg v).1.trans hvi, (hg v).2.trans hvs⟩
  · exact ⟨v, List.mem_append_left _ hv, hvi, hvs⟩

/-- A published-version witness survives the version-status upgrade a publish
performs. -/
theorem publish_vers_keep (vers : List ExtVersion) (vid now : Nat) {i : Nat}
    (hw : ∃ w ∈ vers, w.extensionId = i ∧ w.status = VerStatus.published) :
    ∃ w ∈ vers.map (fun w =>
        if w.id == vid then
          { w with status := VerStatus.published, publishedAt := some now }
        else w),
      w.extensionId = i ∧ w.status = VerStatus.published := by
  obtain ⟨w, hwm, hwi, hws⟩ := hw
  refine ⟨_, List.mem_map_of_mem _ hwm, ?_⟩
  by_cases h : (w.id == vid) = true <;> simp [h, hwi, hws]

/-- Tame steps preserve the extension-publication invariant. -/
theorem tame_inv {db db' : DB} (hE : ExtsTame db.exts db'.exts)
    (hV : VersTame db.vers db'.vers) (hinv : ExtVerInv db) : ExtVerInv db' := by
  intro e' he' hs'
  rcases hE with hEq | ⟨f, hmap, hf⟩ | ⟨e0, he0s, _, happ⟩
  · exact versTame_keep hV (hinv e' (hEq ▸ he') hs')
  · rw [hmap] at he'
    obtain ⟨e, he, rfl⟩ := List.mem_map.mp he'
    have hst : e.status = ExtStatus.published := ((hf e).2.1).symm.trans hs'
    have := hinv e he hst
    rw [(hf e).1]
    exact versTame_keep hV this
  · rw [happ] at he'
    rcases List.mem_append.mp he' with he | he
    · exact versTame_keep hV (hinv e' he hs')
    · have : e' = e0 := by simpa using he
      rw [this, he0s] at hs'
      cases hs'

/-- Tame steps preserve every extension row's status and publish time (new
rows are drafts). -/
theorem tame_statusFrame {db db' : DB} (hE : ExtsTame db.exts db'.exts) :
    ExtStatusFrame db db' := by
  intro e' he'
  rcases hE with hEq | ⟨f, hmap, hf⟩ | ⟨e0, he0s, he0p, happ⟩
  · exact Or.inl ⟨e', hEq ▸ he', rfl, rfl, rfl⟩
  · rw [hmap] at he'
    obtain ⟨e, he, rfl⟩ := List.mem_map.mp he'
    exact Or.inl ⟨e, he, ((hf e).1).symm, (hf e).2.1, (hf e).2.2⟩
  · rw [happ] at he'
    rcases List.mem_append.mp he' with he | he
    · exact Or.inl ⟨e', he, rfl, rfl, rfl⟩
    · have : e' = e0 := by simpa using he
      exact Or.inr ⟨this ▸ he0s, this ▸ he0p⟩

/-- Publishing preserves the extension-publication invariant: the extension
is only marked published after its version row was. -/
theorem publish_inv (db : DB) (uid : Nat) (slug ver : String) (now : Nat)
    (hinv : ExtVerInv db) :
    ExtVerInv (publishVersionRoute db uid slug ver now).2 := by
  unfold publishVersionRoute
  cases hpub : findPublisherByUser db uid with
  | none => exact hinv
  | some pub =>
    dsimp only
    cases hext : findExt db pub.id slug with
    | none => exact hinv
    | some ext =>
      dsimp only
      cases hv : findVersionPair db ext.id ver with
      | none => exact hinv
      | some v =>
        dsimp only
        simp only [findVersionPair] at hv
        have hvmem : v ∈ db.vers := List.mem_of_find?_eq_some hv
        have hvpred := List.find?_some hv
        have hvext : v.extensionId = ext.id := by
          simp only [Bool.and_eq_true, beq_iff_eq] at hvpred
          exact hvpred.1
        by_cases hst : v.status = VerStatus.draft
        · simp only [hst, ne_eq, not_true_eq_false, if_false]
          intro e' he' hs'
          dsimp only at he' hs' ⊢
          obtain ⟨e, he, rfl⟩ := List.mem_map.mp he'
          by_cases hid : (e.id == ext.id) = true
          · by_cases hed : ext.status = ExtStatus.draft
            · refine ⟨{ v with status := .published, publishedAt := some now },
                ?_, ?_, rfl⟩
              · have hm := List.mem_map_of_mem (fun w =>
                  if w.id == v.id then
                    { w with status := VerStatus.published,
                             publishedAt := some now }
                  else w) hvmem
                simpa using hm
              · have he_id : e.id = ext.id := beq_iff_eq.mp hid
                simp only [hid, hed, if_true]
                exact hvext.trans he_id.symm
            · have hs'' : e.status = ExtStatus.published := by
                simpa [hid, hed] using hs'
              have hw := hinv e he hs''
              simpa [hid, hed] using publish_vers_keep db.vers v.id now hw
          · have hs'' : e.status = ExtStatus.published := by
              simpa [hid] using hs'
            have hw := hinv e he hs''
            simpa [hid] using publish_vers_keep db.vers v.id now hw
        · rw [if_pos hst]
          exact hinv


/-- C2: every modeled operation preserves "a published extension has a
published version"; no operation other than publish changes any extension's
status or publish time (new extensions are drafts); and a successful publish
stamps the extension published with the publish time exactly when the
extension was still `draft`, otherwise bumps only its update time. -/
theorem c2_publish_state_machine :
    (∀ db db', Step db db' → ExtVerInv db → ExtVerInv db') ∧
    (∀ db db', StepNP db db' → ExtStatusFrame db db') ∧
    (∀ (db : DB) (uid : Nat) (slug ver : String) (now : Nat)
       (pub : Publisher) (ext : Extension) (v : ExtVersion),
      findPublisherByUser db uid = some pub →
      findExt db pub.id slug = some ext →
      findVersionPair db ext.id ver = some v →
      v.status = .draft →
      (ext.status = .draft →
        (publishVersionRoute db uid slug ver now).2.exts =
          db.exts.map fun e =>
            if e.id = ext.id then
              { e with status := .published, publishedAt := some now,
                       updatedAt := now }
            else e) ∧
      (ext.status ≠ .draft →
        (publishVersionRoute db uid slug ver now).2.exts =
          db.exts.map fun e =>
            if e.id = ext.id then { e with updatedAt := now } else e)) := by
  refine ⟨?_, ?_, ?_⟩
  · intro db db' hstep hinv
    cases hstep with
    | np h =>
      obtain ⟨hE, hV⟩ := stepNP_tame h
      exact tame_inv hE hV hinv
    | publish uid slug ver now => exact publish_inv _ uid slug ver now hinv
  · intro db db' h
    exact tame_statusFrame (stepNP_tame h).1
  · intro db uid slug ver now pub ext v hpub hext hv hd
    constructor
    · intro hed
      simp [publishVersionRoute, hpub, hext, hv, hd, hed]
    · intro hed
      simp [publishVersionRoute, hpub, hext, hv, hd, hed]

/-- C2 witness: invariant preservation across the concrete first publish, the
status frame of a concrete review write, and the first-publish stamping on
the concrete draft state. -/
theorem c2_publish_state_machine_witness :
    ExtVerInv (publishVersionRoute dbW 10 "tool" "2.0.0" 7).2 ∧
    ExtStatusFrame dbW (upsertReviewRoute dbW 20 "tool" 5 none none 1 8).2 ∧
    (publishVersionRoute dbW 10 "tool" "2.0.0" 7).2.exts =
      dbW.exts.map (fun e =>
        if e.id = 1 then
          { e with status := .published, publishedAt := some 7,
                   updatedAt := 7 }
        else e) :=
  ⟨c2_publish_state_machine.1 dbW _ (Step.publish dbW 10 "tool" "2.0.0" 7)
      (by decide),
   c2_publish_state_machine.2.1 dbW _
      (StepNP.upsertRev dbW 20 "tool" 5 none none 1 8),
   (c2_publish_state_machine.2.2 dbW 10 "tool" "2.0.0" 7 pubW extW verW
      (by decide) (by decide) (by decide) (by decide)).1 (by decide)⟩

/-! ## Lowercase-hex output of the digest -/

theorem byteHex_chars (b : Nat) : (byteHex b).data.all isHexCh = true := by
  have hd : ∀ n, n < 16 → isHexCh (hexDigitCh n) = true := by
    intro n hn
    interval_cases n <;> decide
  have h1 : b / 16 % 16 < 16 := Nat.mod_lt _ (by norm_num)
  have h2 : b % 16 < 16 := Nat.mod_lt _ (by norm_num)
  show ([hexDigitCh (b / 16 % 16), hexDigitCh (b % 16)].all isHexCh) = true
  simp [hd _ h1, hd _ h2]

theorem strConcat_all_hex (l : List String)
    (h : ∀ s ∈ l, s.data.all isHexCh = true) :
    isLowerHexStr (strConcat l) = true := by
  induction l with
  | nil => decide
  | cons x xs ih =>
    have hx := h x (List.mem_cons_self _ _)
    have hxs := ih fun s hs => h s (List.mem_cons_of_mem _ hs)
    show isLowerHexStr (x ++ strConcat xs) = true
    unfold isLowerHexStr at hxs ⊢
    rw [String.data_append, List.all_append]
    simp [hx, hxs]

/-- The hex digest rendering is always lowercase hexadecimal. -/
theorem sha256Hex_lower (bs : List Nat) : isLowerHexStr (sha256Hex bs) = true := by
  unfold sha256Hex
  apply strConcat_all_hex
  intro s hs
  obtain ⟨b, _, rfl⟩ := List.mem_map.mp hs
  exact byteHex_chars b

/-- C5: when the request is well-formed and the checks pass, creation stores
the version with bundleHash equal to the SHA-256 of the exact uploaded bytes
(lowercase hex), bundleSize equal to the byte count, and bundlePath equal to
`publisherSlug/extensionSlug/version.xt` derived purely from identifiers, and
the bytes land in storage at that path; if the path is already occupied the
route fails 500 and changes nothing — the existing artifact is never
overwritten. -/
theorem c5_bundle_hash_and_path (db : DB) (uid : Nat) (slug : String)
    (bundle : List Nat) (meta : VersionMeta) (newId now : Nat)
    (pub : Publisher) (ext : Extension)
    (hpub : findPublisherByUser db uid = some pub)
    (hext : findExt db pub.id slug = some ext)
    (hmeta : metaValid meta = true)
    (hnodup : findVersionPair db ext.id meta.version = none)
    (hord : ∀ l, latestCreated db ext.id = some l →
      semverGtStr meta.version l.version = true) :
    (storageHas db.storage
        (pub.slug ++ "/" ++ ext.slug ++ "/" ++ meta.version ++ ".xt") = false →
      ∃ v : ExtVersion,
        createVersionRoute db uid slug bundle meta newId now =
          (.createdVersion v,
           { db with
             vers := db.vers ++ [v],
             storage := db.storage ++
               [(pub.slug ++ "/" ++ ext.slug ++ "/" ++ meta.version ++ ".xt",
                 bundle)] }) ∧
        v.bundleHash = sha256Hex bundle ∧
        isLowerHexStr v.bundleHash = true ∧
        v.bundlePath =
          pub.slug ++ "/" ++ ext.slug ++ "/" ++ meta.version ++ ".xt" ∧
        v.bundleSize = bundle.length ∧ v.status = .draft ∧
        v.manifest = meta.manifest) ∧
    (storageHas db.storage
        (pub.slug ++ "/" ++ ext.slug ++ "/" ++ meta.version ++ ".xt") = true →
      createVersionRoute db uid slug bundle meta newId now =
        (.err 500 "The resource already exists", db)) := by
  have hroute : createVersionRoute db uid slug bundle meta newId now =
      createVersionFinish db pub ext bundle meta newId now := by
    simp only [createVersionRoute, hpub, hext, hmeta, Bool.not_true,
      Bool.false_eq_true, if_false, hnodup]
    cases hl : latestCreated db ext.id with
    | none => rfl
    | some l => simp [hord l hl]
  have hfind : db.vers.find? (fun v =>
      v.extensionId == ext.id && v.version == meta.version) = none := hnodup
  have hany : (db.vers.any fun w =>
      w.extensionId == ext.id && w.version == meta.version) = false := by
    rw [List.any_eq_false]
    intro w hw
    have h1 := List.find?_eq_none.mp hfind w hw
    simpa using h1
  rw [hroute]
  constructor
  · intro hfree
    refine ⟨{ id := newId,
              extensionId := ext.id,
              version := meta.version,
              changelog := meta.changelog,
              bundlePath :=
                pub.slug ++ "/" ++ ext.slug ++ "/" ++ meta.version ++ ".xt",
              bundleSize := bundle.length,
              bundleHash := sha256Hex bundle,
              manifest := meta.manifest,
              minAppVersion := meta.minAppVersion,
              maxAppVersion := meta.maxAppVersion,
              permissions := meta.permissions,
              status := .draft,
              downloads := 0,
              createdAt := now,
              publishedAt := none },
      ?_, rfl, sha256Hex_lower bundle, rfl, rfl, rfl, rfl⟩
    simp [createVersionFinish, uploadExtensionBundle, hfree, dbInsertVersion,
      hany]
  · intro htaken
    simp [createVersionFinish, uploadExtensionBundle, htaken]

/-- C5 witness: the successful creation of "3.0.0" on the concrete state
(fresh path), and the 500 on recreating a bundle at the occupied "2.0.0"
path. -/
theorem c5_bundle_hash_and_path_witness :
    (∃ v : ExtVersion,
      createVersionRoute dbW 10 "tool" [1, 2, 3] metaW30 2 6 =
        (.createdVersion v,
         { dbW with
           vers := dbW.vers ++ [v],
           storage := dbW.storage ++ [("acme/tool/3.0.0.xt", [1, 2, 3])] }) ∧
      v.bundleHash = sha256Hex [1, 2, 3] ∧
      isLowerHexStr v.bundleHash = true ∧
      v.bundlePath = "acme/tool/3.0.0.xt" ∧
      v.bundleSize = 3 ∧ v.status = .draft ∧ v.manifest = "m") :=
  (c5_bundle_hash_and_path dbW 10 "tool" [1, 2, 3] metaW30 2 6 pubW extW
    (by decide) (by decide) (by decide) (by decide)
    (fun l hl => by
      have h2 : latestCreated dbW extW.id = some verW := by decide
      rw [h2] at hl
      injection hl with h3
      subst h3
      decide)).1 (by decide)


/-- Every failing API-key authentication yields the one fixed 401 error. -/
theorem apiKey_fail_const (db0 : DB) (h0 : String) (now0 : Nat)
    (s0 : Option Nat) (b0 : Bool)
    (hb0 : strStarts h0 "Bearer " = true)
    (hk0 : strStarts (strDrop h0 7) "hxmp_" = true)
    (hno : ∀ k ∈ db0.apiKeys,
      ¬(k.keyHash = sha256Hex (utf8Bytes (strDrop h0 7)) ∧
        now0 < k.expiresAt)) :
    (requireApiKeyOrAuth db0 (some h0) now0 s0 b0).1 =
      .unauthenticated 401 "Invalid or expired API key" := by
  have hfind : db0.apiKeys.find? (fun k =>
      k.keyHash == sha256Hex (utf8Bytes (strDrop h0 7)) &&
        decide (now0 < k.expiresAt)) = none := by
    rw [List.find?_eq_none]
    intro k hkmem hpk
    exact hno k hkmem (by simpa using hpk)
  simp [requireApiKeyOrAuth, hb0, hk0, hfind]

/-- C6: an API-key credential is accepted exactly when a stored key's hash
equals the SHA-256 of the full credential and its expiry is strictly in the
future; every rejection — unknown hash or expired key alike — is the
identical 401 error, so the response carries no validity signal; and any two
rejected requests (e.g. one wrong key, one expired key) produce equal
outputs. -/
theorem c6_api_key_auth (db : DB) (h : String) (now : Nat)
    (sess : Option Nat) (bumpOk : Bool)
    (hb : strStarts h "Bearer " = true)
    (hk : strStarts (strDrop h 7) "hxmp_" = true)
    (hfk : ∀ k ∈ db.apiKeys, ∃ p ∈ db.publishers, p.id = k.publisherId) :
    ((requireApiKeyOrAuth db (some h) now sess bumpOk).1 =
        .unauthenticated 401 "Invalid or expired API key" ↔
      ∀ k ∈ db.apiKeys,
        ¬(k.keyHash = sha256Hex (utf8Bytes (strDrop h 7)) ∧
          now < k.expiresAt)) ∧
    ((∃ pid puid pslug, (requireApiKeyOrAuth db (some h) now sess bumpOk).1 =
        .okKey pid puid pslug) ↔
      ∃ k ∈ db.apiKeys,
        k.keyHash = sha256Hex (utf8Bytes (strDrop h 7)) ∧ now < k.expiresAt) ∧
    (∀ (db₂ : DB) (h₂ : String) (now₂ : Nat) (s₂ : Option Nat) (b₂ : Bool),
      strStarts h₂ "Bearer " = true →
      strStarts (strDrop h₂ 7) "hxmp_" = true →
      (∀ k ∈ db.apiKeys,
        ¬(k.keyHash = sha256Hex (utf8Bytes (strDrop h 7)) ∧
          now < k.expiresAt)) →
      (∀ k ∈ db₂.apiKeys,
        ¬(k.keyHash = sha256Hex (utf8Bytes (strDrop h₂ 7)) ∧
          now₂ < k.expiresAt)) →
      (requireApiKeyOrAuth db (some h) now sess bumpOk).1 =
        (requireApiKeyOrAuth db₂ (some h₂) now₂ s₂ b₂).1) := by
  by_cases hex : ∀ k ∈ db.apiKeys,
      ¬(k.keyHash = sha256Hex (utf8Bytes (strDrop h 7)) ∧ now < k.expiresAt)
  · have herr := apiKey_fail_const db h now sess bumpOk hb hk hex
    refine ⟨⟨fun _ => hex, fun _ => herr⟩, ?_, ?_⟩
    · rw [herr]
      constructor
      · rintro ⟨pid, puid, pslug, habs⟩
        cases habs
      · rintro ⟨k, hkmem, hkh, hkexp⟩
        exact absurd ⟨hkh, hkexp⟩ (hex k hkmem)
    · intro db₂ h₂ now₂ s₂ b₂ hb₂ hk₂ _ hno₂
      rw [herr, apiKey_fail_const db₂ h₂ now₂ s₂ b₂ hb₂ hk₂ hno₂]
  · push_neg at hex
    obtain ⟨k0, hk0mem, hk0h, hk0exp⟩ := hex
    have hsome : (db.apiKeys.find? (fun k =>
        k.keyHash == sha256Hex (utf8Bytes (strDrop h 7)) &&
          decide (now < k.expiresAt))).isSome = true := by
      rw [List.find?_isSome]
      exact ⟨k0, hk0mem, by simp [hk0h, hk0exp]⟩
    obtain ⟨k, hfindk⟩ := Option.isSome_iff_exists.mp hsome
    have hkmem : k ∈ db.apiKeys := List.mem_of_find?_eq_some hfindk
    have hkpred := List.find?_some hfindk
    have hkprop : k.keyHash = sha256Hex (utf8Bytes (strDrop h 7)) ∧
        now < k.expiresAt := by simpa using hkpred
    obtain ⟨p, hpmem, hpid⟩ := hfk k hkmem
    have hpsome : (db.publishers.find? (fun q =>
        q.id == k.publisherId)).isSome = true := by
      rw [List.find?_isSome]
      exact ⟨p, hpmem, by simp [hpid]⟩
    obtain ⟨p', hfp⟩ := Option.isSome_iff_exists.mp hpsome
    have hres : (requireApiKeyOrAuth db (some h) now sess bumpOk).1 =
        .okKey p'.id p'.userId p'.slug := by
      simp [requireApiKeyOrAuth, hb, hk, hfindk, hfp]
    refine ⟨?_, ?_, ?_⟩
    · rw [hres]
      constructor
      · intro habs; cases habs
      · intro hno
        exact absurd ⟨hk0h, hk0exp⟩ (hno k0 hk0mem)
    · rw [hres]
      constructor
      · intro _
        exact ⟨k, hkmem, hkprop⟩
      · intro _
        exact ⟨p'.id, p'.userId, p'.slug, rfl⟩
    · intro db₂ h₂ now₂ s₂ b₂ hb₂ hk₂ hno _
      exact absurd ⟨hk0h, hk0exp⟩ (hno k0 hk0mem)

/-- C6 witness: an expired key (hash matches, expiry 5 < now 10) and an
unknown key both yield the identical 401, and the accept/reject
characterization holds on the expired-key state. -/
theorem c6_api_key_auth_witness :
    ((requireApiKeyOrAuth dbK6 (some "Bearer hxmp_test") 10 none true).1 =
        .unauthenticated 401 "Invalid or expired API key" ↔
      ∀ k ∈ dbK6.apiKeys,
        ¬(k.keyHash =
            sha256Hex (utf8Bytes (strDrop "Bearer hxmp_test" 7)) ∧
          10 < k.expiresAt)) ∧
    (requireApiKeyOrAuth dbK6 (some "Bearer hxmp_test") 10 none true).1 =
      (requireApiKeyOrAuth dbK6e (some "Bearer hxmp_other") 10 none true).1 :=
  ⟨(c6_api_key_auth dbK6 "Bearer hxmp_test" 10 none true rfl rfl
      (by decide)).1,
   (c6_api_key_auth dbK6 "Bearer hxmp_test" 10 none true rfl rfl
      (by decide)).2.2 dbK6e "Bearer hxmp_other" 10 none true rfl rfl
      (fun k hkm => by
        simp only [dbK6] at hkm
        simp only [List.mem_singleton] at hkm
        subst hkm
        rintro ⟨_, habs⟩
        exact absurd habs (by decide))
      (fun k hkm => by
        simp only [dbK6e] at hkm
        cases hkm)⟩

/-! ## Rating aggregation lemmas -/


theorem eq_of_id_mem {l : List Review}
    (h : l.Pairwise (fun a b => a.id ≠ b.id)) {a b : Review}
    (ha : a ∈ l) (hb : b ∈ l) (hid : a.id = b.id) : a = b := by
  by_contra hne
  have hsymm : Symmetric (fun a b : Review => a.id ≠ b.id) :=
    fun a b hab hba => hab hba.symm
  exact (h.forall hsymm) ha hb hne hid

theorem eq_of_pair_mem {l : List Review}
    (h : l.Pairwise
      (fun a b => ¬(a.extensionId = b.extensionId ∧ a.userId = b.userId)))
    {a b : Review} (ha : a ∈ l) (hb : b ∈ l)
    (he : a.extensionId = b.extensionId) (hu : a.userId = b.userId) :
    a = b := by
  by_contra hne
  have hsymm : Symmetric (fun a b : Review =>
      ¬(a.extensionId = b.extensionId ∧ a.userId = b.userId)) :=
    fun a b hab hba => hab ⟨hba.1.symm, hba.2.symm⟩
  exact (h.forall hsymm) ha hb hne ⟨he, hu⟩

theorem len_le_ratingSum (l : List Review)
    (h : ∀ r ∈ l, 1 ≤ r.rating) : l.length ≤ (l.map (·.rating)).sum := by
  induction l with
  | nil => simp
  | cons x xs ih =>
    have hx := h x (List.mem_cons_self _ _)
    have hxs := ih fun r hr => h r (List.mem_cons_of_mem _ hr)
    simp only [List.length_cons, List.map_cons, List.sum_cons]
    omega

theorem ratingSum_le_five (l : List Review)
    (h : ∀ r ∈ l, r.rating ≤ 5) : (l.map (·.rating)).sum ≤ 5 * l.length := by
  induction l with
  | nil => simp
  | cons x xs ih =>
    have hx := h x (List.mem_cons_self _ _)
    have hxs := ih fun r hr => h r (List.mem_cons_of_mem _ hr)
    simp only [List.length_cons, List.map_cons, List.sum_cons]
    omega

theorem roundAvg_ge (sum cnt : Nat) (hc : 0 < cnt) (hs : cnt ≤ sum) :
    100 ≤ (200 * sum + cnt) / (2 * cnt) := by
  rw [Nat.le_div_iff_mul_le (by omega)]
  omega

theorem roundAvg_le (sum cnt : Nat) (hc : 0 < cnt) (hs : sum ≤ 5 * cnt) :
    (200 * sum + cnt) / (2 * cnt) ≤ 500 := by
  have : (200 * sum + cnt) / (2 * cnt) < 501 := by
    rw [Nat.div_lt_iff_lt_mul (by omega)]
    omega
  omega

/-- Closed forms of the aggregate the rating recompute writes, when the
stored ratings are in range: the JavaScript null-coercion never fires on a
nonempty review set. -/
theorem ratingStats_closed (db : DB) (extId : Nat)
    (hr : ∀ r ∈ db.reviews, 1 ≤ r.rating ∧ r.rating ≤ 5) :
    jsOrNull (ratingStats db.reviews extId).1 = specAvg (reviewsOf db extId) ∧
    (ratingStats db.reviews extId).2 = (reviewsOf db extId).length ∧
    (specAvg (reviewsOf db extId) = none ↔ (reviewsOf db extId).length = 0) ∧
    (∀ n, specAvg (reviewsOf db extId) = some n → 100 ≤ n ∧ n ≤ 500) := by
  have hrb : ∀ r ∈ reviewsOf db extId, 1 ≤ r.rating ∧ r.rating ≤ 5 :=
    fun r hrm => hr r (List.mem_of_mem_filter hrm)
  have hsum1 : (reviewsOf db extId).length ≤
      ((reviewsOf db extId).map (·.rating)).sum :=
    len_le_ratingSum _ fun r hrm => (hrb r hrm).1
  have hsum5 : ((reviewsOf db extId).map (·.rating)).sum ≤
      5 * (reviewsOf db extId).length :=
    ratingSum_le_five _ fun r hrm => (hrb r hrm).2
  have hst1 : (ratingStats db.reviews extId).1 = specAvg (reviewsOf db extId) := rfl
  have hst2 : (ratingStats db.reviews extId).2 = (reviewsOf db extId).length := rfl
  by_cases hlen : (reviewsOf db extId).length = 0
  · have hspec : specAvg (reviewsOf db extId) = none := by
      unfold specAvg
      rw [if_pos hlen]
    refine ⟨by rw [hst1, hspec]; rfl, hst2, by rw [hspec]; simp [hlen],
      fun n hn => by rw [hspec] at hn; cases hn⟩
  · have hcnt : 0 < (reviewsOf db extId).length := by omega
    have h100 := roundAvg_ge _ _ hcnt hsum1
    have h500 := roundAvg_le _ _ hcnt hsum5
    have hspec : specAvg (reviewsOf db extId) =
        some ((200 * ((reviewsOf db extId).map (·.rating)).sum +
          (reviewsOf db extId).length) / (2 * (reviewsOf db extId).length)) := by
      unfold specAvg
      rw [if_neg hlen]
    refine ⟨?_, hst2, by rw [hspec]; simp [hlen], fun n hn => by
      rw [hspec] at hn
      injection hn with hn'
      omega⟩
    rw [hst1, hspec]
    rcases hrnd : (200 * ((reviewsOf db extId).map (·.rating)).sum +
        (reviewsOf db extId).length) / (2 * (reviewsOf db extId).length)
      with _ | j
    · rw [hrnd] at h100; omega
    · rfl

/-- The row the aggregator writes: the spec formula, with its null-iff-empty
and 100..500 facts. -/
theorem updateRating_row (db : DB) (extId now : Nat)
    (hr : ∀ r ∈ db.reviews, 1 ≤ r.rating ∧ r.rating ≤ 5) :
    ∀ e' ∈ (updateExtensionRating db extId now).exts, e'.id = extId →
      e'.averageRating = specAvg (reviewsOf db extId) ∧
      e'.reviewCount = (reviewsOf db extId).length ∧
      (e'.averageRating = none ↔ e'.reviewCount = 0) ∧
      (∀ n, e'.averageRating = some n → 100 ≤ n ∧ n ≤ 500) := by
  intro e' he' hid
  obtain ⟨hc1, hc2, hc3, hc4⟩ := ratingStats_closed db extId hr
  unfold updateExtensionRating at he'
  dsimp only at he'
  obtain ⟨e, he, rfl⟩ := List.mem_map.mp he'
  by_cases hbe : (e.id == extId) = true
  · simp only [hbe, if_true] at hid ⊢
    refine ⟨hc1, hc2, ?_, ?_⟩
    · rw [hc1, hc2]
      exact hc3
    · intro n hn
      exact hc4 n (hc1 ▸ hn)
  · simp only [hbe, Bool.false_eq_true, if_false] at hid
    exact absurd (beq_iff_eq.mpr hid) hbe

/-- The aggregator preserves aggregate well-formedness on every row. -/
theorem updateRating_good (db : DB) (extId now : Nat)
    (hr : ∀ r ∈ db.reviews, 1 ≤ r.rating ∧ r.rating ≤ 5)
    (hg : GoodAgg db) : GoodAgg (updateExtensionRating db extId now) := by
  intro e' he'
  by_cases hid : e'.id = extId
  · have h := updateRating_row db extId now hr e' he' hid
    exact ⟨h.2.2.1, h.2.2.2⟩
  · unfold updateExtensionRating at he'
    dsimp only at he'
    obtain ⟨e, he, rfl⟩ := List.mem_map.mp he'
    by_cases hbe : (e.id == extId) = true
    · simp only [hbe, if_true] at hid
      exact absurd (beq_iff_eq.mp hbe) hid
    · simp only [hbe, Bool.false_eq_true, if_false] at hid ⊢
      exact hg e he

/-- C7: after an upsert (insert or update) the aggregates on the extension
row equal the spec formula `round(mean*100)` (null only when empty) and the
count of current reviews; per-(extension, identity) uniqueness of reviews is
preserved and the writing identity's review carries exactly its latest
rating, never both values; and after a successful delete the recomputed
aggregates again equal the spec formula. -/
theorem c7_review_aggregates (db : DB) (uid : Nat) (slug : String)
    (rating : Nat) (title content : Option String) (newId now : Nat)
    (ext : Extension)
    (hr : RatingsInRange db) (hu : ReviewsUnique db) (hi : ReviewIdsUnique db)
    (hext : db.exts.find? (fun e => e.slug == slug) = some ext)
    (hrate : 1 ≤ rating ∧ rating ≤ 5) :
    (RatingsInRange
        (upsertReviewRoute db uid slug rating title content newId now).2 ∧
      ReviewsUnique
        (upsertReviewRoute db uid slug rating title content newId now).2 ∧
      (∀ e' ∈ (upsertReviewRoute db uid slug rating title content
            newId now).2.exts, e'.id = ext.id →
        e'.averageRating = specAvg (reviewsOf
          (upsertReviewRoute db uid slug rating title content newId now).2
          ext.id) ∧
        e'.reviewCount = (reviewsOf
          (upsertReviewRoute db uid slug rating title content newId now).2
          ext.id).length) ∧
      (∀ r ∈ (upsertReviewRoute db uid slug rating title content
            newId now).2.reviews,
        r.extensionId = ext.id → r.userId = uid → r.rating = rating) ∧
      (∃ r ∈ (upsertReviewRoute db uid slug rating title content
            newId now).2.reviews,
        r.extensionId = ext.id ∧ r.userId = uid ∧ r.rating = rating)) ∧
    ((deleteReviewRoute db uid slug now).1 = .deleteOk →
      ∀ e' ∈ (deleteReviewRoute db uid slug now).2.exts, e'.id = ext.id →
        e'.averageRating =
          specAvg (reviewsOf (deleteReviewRoute db uid slug now).2 ext.id) ∧
        e'.reviewCount =
          (reviewsOf (deleteReviewRoute db uid slug now).2 ext.id).length) := by
  have hgu : (!(decide (1 ≤ rating) && decide (rating ≤ 5))) = false := by
    simp [hrate.1, hrate.2]
  constructor
  · cases hfind : db.reviews.find?
        (fun r => r.extensionId == ext.id && r.userId == uid) with
    | some ex =>
      have hexmem : ex ∈ db.reviews := List.mem_of_find?_eq_some hfind
      have hexE : ex.extensionId = ext.id ∧ ex.userId = uid := by
        simpa using List.find?_some hfind
      have hroute :
          (upsertReviewRoute db uid slug rating title content newId now).2 =
          updateExtensionRating
            { db with reviews := db.reviews.map fun r =>
                if r.id == ex.id then
                  { ex with rating := rating, title := title,
                            content := content, updatedAt := now }
                else r }
            ext.id now := by
        simp only [upsertReviewRoute, hgu, Bool.false_eq_true, if_false,
          hext, hfind]
      have hfeq : ∀ a ∈ db.reviews,
          ((if a.id == ex.id then
              { ex with rating := rating, title := title, content := content,
                        updatedAt := now }
            else a) =
            { ex with rating := rating, title := title, content := content,
                      updatedAt := now } ∧ a = ex) ∨
          ((if a.id == ex.id then
              { ex with rating := rating, title := title, content := content,
                        updatedAt := now }
            else a) = a ∧ ¬((a.id == ex.id) = true)) := by
        intro a ha
        by_cases hae : (a.id == ex.id) = true
        · exact Or.inl ⟨by simp [hae],
            eq_of_id_mem hi ha hexmem (beq_iff_eq.mp hae)⟩
        · exact Or.inr ⟨by simp [hae], hae⟩
      rw [hroute]
      have hr1 : ∀ r ∈ (db.reviews.map fun a =>
          if a.id == ex.id then
            { ex with rating := rating, title := title, content := content,
                      updatedAt := now }
          else a), 1 ≤ r.rating ∧ r.rating ≤ 5 := by
        intro r hrm
        obtain ⟨a, ha, rfl⟩ := List.mem_map.mp hrm
        rcases hfeq a ha with ⟨heq, _⟩ | ⟨heq, _⟩
        · rw [heq]; exact hrate
        · rw [heq]; exact hr a ha
      refine ⟨hr1, ?_, ?_, ?_, ?_⟩
      · show (db.reviews.map _).Pairwise _
        rw [List.pairwise_map]
        refine List.Pairwise.imp_of_mem ?_ hu
        intro a b ha hb hR habs
        rcases hfeq a ha with ⟨hea, hax⟩ | ⟨hea, _⟩ <;>
          rcases hfeq b hb with ⟨heb, hbx⟩ | ⟨heb, _⟩
        · exact hR (by rw [hax, hbx]; exact ⟨rfl, rfl⟩)
        · rw [hea, heb] at habs
          exact hR ⟨hax ▸ habs.1, hax ▸ habs.2⟩
        · rw [hea, heb] at habs
          exact hR ⟨hbx ▸ habs.1, hbx ▸ habs.2⟩
        · rw [hea, heb] at habs
          exact hR habs
      · intro e' he' hid
        have h := updateRating_row _ ext.id now hr1 e' he' hid
        exact ⟨h.1, h.2.1⟩
      · intro r hrm hre hru
        obtain ⟨a, ha, rfl⟩ := List.mem_map.mp hrm
        rcases hfeq a ha with ⟨heq, _⟩ | ⟨heq, hane⟩
        · rw [heq]
        · rw [heq] at hre hru ⊢
          have hax : a = ex := eq_of_pair_mem hu ha hexmem
            (hre.trans hexE.1.symm) (hru.trans hexE.2.symm)
          exact absurd (beq_iff_eq.mpr (by rw [hax])) hane
      · refine ⟨{ ex with rating := rating, title := title,
                          content := content, updatedAt := now },
          ?_, hexE.1, hexE.2, rfl⟩
        exact List.mem_map.mpr ⟨ex, hexmem, by simp⟩
    | none =>
      have hnon := List.find?_eq_none.mp hfind
      have hroute :
          (upsertReviewRoute db uid slug rating title content newId now).2 =
          updateExtensionRating
            { db with reviews := db.reviews ++
                [{ id := newId, extensionId := ext.id, userId := uid,
                   rating := rating, title := title, content := content,
                   createdAt := now, updatedAt := now }] }
            ext.id now := by
        simp only [upsertReviewRoute, hgu, Bool.false_eq_true, if_false,
          hext, hfind]
      rw [hroute]
      have hr1 : ∀ r ∈ db.reviews ++
          [({ id := newId, extensionId := ext.id, userId := uid,
              rating := rating, title := title, content := content,
              createdAt := now, updatedAt := now } : Review)],
          1 ≤ r.rating ∧ r.rating ≤ 5 := by
        intro r hrm
        rcases List.mem_append.mp hrm with hrm | hrm
        · exact hr r hrm
        · rw [List.mem_singleton.mp hrm]; exact hrate
      refine ⟨hr1, ?_, ?_, ?_, ?_⟩
      · show (db.reviews ++ _).Pairwise _
        refine List.pairwise_append.mpr ⟨hu, List.pairwise_singleton _ _, ?_⟩
        intro a ha b hb
        rw [List.mem_singleton.mp hb]
        intro ⟨h1, h2⟩
        exact hnon a ha (by simp [h1, h2])
      · intro e' he' hid
        have h := updateRating_row _ ext.id now hr1 e' he' hid
        exact ⟨h.1, h.2.1⟩
      · intro r hrm hre hru
        rcases List.mem_append.mp hrm with hrm | hrm
        · exact absurd (by simp [hre, hru]) (hnon r hrm)
        · rw [List.mem_singleton.mp hrm]
      · exact ⟨_, List.mem_append_right _ (List.mem_singleton.mpr rfl),
          rfl, rfl, rfl⟩
  · by_cases hany : (db.reviews.any
        fun r => r.extensionId == ext.id && r.userId == uid) = true
    · have hroute : deleteReviewRoute db uid slug now =
          (.deleteOk, updateExtensionRating
            { db with
              reviews := db.reviews.filter fun r =>
                !(r.extensionId == ext.id && r.userId == uid) }
            ext.id now) := by
        simp only [deleteReviewRoute, hext, hany, if_true]
      intro _ e' he' hid
      rw [hroute] at he' ⊢
      have hr1 : ∀ r ∈ (db.reviews.filter fun r =>
          !(r.extensionId == ext.id && r.userId == uid)),
          1 ≤ r.rating ∧ r.rating ≤ 5 :=
        fun r hrm => hr r (List.mem_of_mem_filter hrm)
      have h := updateRating_row _ ext.id now hr1 e' he' hid
      exact ⟨h.1, h.2.1⟩
    · intro hok
      exfalso
      have : (deleteReviewRoute db uid slug now).1 =
          .err 404 "Review not found" := by
        simp [deleteReviewRoute, hext, hany]
      rw [this] at hok
      cases hok

/-- C7 witness: a concrete review insert keeps ratings in range and stores
the new identity's rating exactly once. -/
theorem c7_review_aggregates_witness :
    RatingsInRange (upsertReviewRoute dbW 20 "tool" 4 none none 1 8).2 ∧
    (∃ r ∈ (upsertReviewRoute dbW 20 "tool" 4 none none 1 8).2.reviews,
      r.extensionId = extW.id ∧ r.userId = 20 ∧ r.rating = 4) :=
  ⟨(c7_review_aggregates dbW 20 "tool" 4 none none 1 8 extW (by decide)
      (by decide) (by decide) (by decide) (by decide)).1.1,
   (c7_review_aggregates dbW 20 "tool" 4 none none 1 8 extW (by decide)
      (by decide) (by decide) (by decide) (by decide)).1.2.2.2.2⟩


/-- One review operation keeps every rating in 1..5 and every extension's
aggregates well-formed. -/
theorem reviewOp_good (db : DB) (op : ReviewOp)
    (h1 : RatingsInRange db) (h2 : GoodAgg db) :
    RatingsInRange (applyReviewOp db op) ∧ GoodAgg (applyReviewOp db op) := by
  cases op with
  | upsert uid slug rating title content newId now =>
    simp only [applyReviewOp, upsertReviewRoute]
    by_cases hval : (!(decide (1 ≤ rating) && decide (rating ≤ 5))) = true
    · simp only [hval, if_true]
      exact ⟨h1, h2⟩
    · have hbf : (!(decide (1 ≤ rating) && decide (rating ≤ 5))) = false :=
        Bool.eq_false_iff.mpr hval
      have hrate : 1 ≤ rating ∧ rating ≤ 5 := by
        have hab : (decide (1 ≤ rating) && decide (rating ≤ 5)) = true := by
          cases hx : (decide (1 ≤ rating) && decide (rating ≤ 5)) with
          | true => rfl
          | false => rw [hx] at hbf; cases hbf
        simp only [Bool.and_eq_true, decide_eq_true_eq] at hab
        exact hab
      simp only [hbf, Bool.false_eq_true, if_false]
      cases hfe : db.exts.find? (fun e => e.slug == slug) with
      | none => exact ⟨h1, h2⟩
      | some ext =>
        dsimp only
        cases hfind : db.reviews.find?
            (fun r => r.extensionId == ext.id && r.userId == uid) with
        | some ex =>
          dsimp only
          have hr1 : ∀ r ∈ (db.reviews.map fun r =>
              if r.id == ex.id then
                { ex with rating := rating, title := title,
                          content := content, updatedAt := now }
              else r), 1 ≤ r.rating ∧ r.rating ≤ 5 := by
            intro r hrm
            obtain ⟨a, ha, rfl⟩ := List.mem_map.mp hrm
            by_cases hae : (a.id == ex.id) = true
            · simp only [hae, if_true]
              exact hrate
            · simp only [hae, Bool.false_eq_true, if_false]
              exact h1 a ha
          exact ⟨hr1, updateRating_good _ ext.id now hr1 h2⟩
        | none =>
          dsimp only
          have hr1 : ∀ r ∈ db.reviews ++
              [({ id := newId, extensionId := ext.id, userId := uid,
                  rating := rating, title := title, content := content,
                  createdAt := now, updatedAt := now } : Review)],
              1 ≤ r.rating ∧ r.rating ≤ 5 := by
            intro r hrm
            rcases List.mem_append.mp hrm with hrm | hrm
            · exact h1 r hrm
            · rw [List.mem_singleton.mp hrm]
              exact hrate
          exact ⟨hr1, updateRating_good _ ext.id now hr1 h2⟩
  | del uid slug now =>
    simp only [applyReviewOp, deleteReviewRoute]
    cases hfe : db.exts.find? (fun e => e.slug == slug) with
    | none => exact ⟨h1, h2⟩
    | some ext =>
      dsimp only
      by_cases hany : (db.reviews.any
          fun r => r.extensionId == ext.id && r.userId == uid) = true
      · simp only [hany, if_true]
        have hr1 : ∀ r ∈ (db.reviews.filter fun r =>
            !(r.extensionId == ext.id && r.userId == uid)),
            1 ≤ r.rating ∧ r.rating ≤ 5 :=
          fun r hrm => h1 r (List.mem_of_mem_filter hrm)
        exact ⟨hr1, updateRating_good _ ext.id now hr1 h2⟩
      · have hbf : (db.reviews.any
            fun r => r.extensionId == ext.id && r.userId == uid) = false :=
          Bool.eq_false_iff.mpr hany
        simp only [hbf, Bool.false_eq_true, if_false]
        exact ⟨h1, h2⟩

/-- C9: across any sequence of review create/update/delete requests starting
from a state with in-range ratings and well-formed aggregates, every
extension's averageRating is null exactly when its reviewCount is 0, and a
non-null average lies in 100..500 (the JavaScript null-coercion can fire
only on an empty review set because accepted ratings are 1..5). -/
theorem c9_rating_bounds_invariant (db : DB) (ops : List ReviewOp)
    (h1 : RatingsInRange db) (h2 : GoodAgg db) :
    RatingsInRange (applyReviewOps db ops) ∧ GoodAgg (applyReviewOps db ops) := by
  induction ops generalizing db with
  | nil => exact ⟨h1, h2⟩
  | cons op rest ih =>
    simp only [applyReviewOps, List.foldl_cons] at *
    obtain ⟨g1, g2⟩ := reviewOp_good db op h1 h2
    exact ih _ g1 g2

/-- C9 witness: the spec scenario — ratings 4 and 5 by two identities, the
first identity then lowering to 2, the second deleting — keeps the
invariant from the concrete draft state. -/
theorem c9_rating_bounds_invariant_witness :
    RatingsInRange (applyReviewOps dbW
      [.upsert 20 "tool" 4 none none 1 8, .upsert 21 "tool" 5 none none 2 9,
       .upsert 20 "tool" 2 none none 3 10, .del 21 "tool" 11]) ∧
    GoodAgg (applyReviewOps dbW
      [.upsert 20 "tool" 4 none none 1 8, .upsert 21 "tool" 5 none none 2 9,
       .upsert 20 "tool" 2 none none 3 10, .del 21 "tool" 11]) :=
  c9_rating_bounds_invariant dbW
    [.upsert 20 "tool" 4 none none 1 8, .upsert 21 "tool" 5 none none 2 9,
     .upsert 20 "tool" 2 none none 3 10, .del 21 "tool" 11]
    (by decide) (by decide)

end Haex
